import Mathlib

/-!
Verification development for the miniplonk proving core
(`src/circuit.rs`, `src/prover.rs`, `src/common.rs`, `src/setup.rs`).

The Rust code is shallowly embedded: `usize` becomes `Nat`, field elements
become an abstract commutative ring (a field where polynomial interpolation
is involved), `anyhow::Result` becomes `Except String`, and a Rust panic
(arithmetic underflow, out-of-bounds indexing, `unwrap` on `None`,
`expect`) is modelled as an `Except.error` carrying a dedicated message,
matching the debug-build behaviour in which a panic aborts the function
without producing a value.  Mutable state (`&mut self`) is threaded
explicitly: each operation consumes a builder/trace and returns the
updated one.  The prover's `while let Some(id) = eval_queue.pop_front()`
loop is modelled with an explicit fuel parameter; a run that terminates
within the given fuel is a faithful image of the Rust loop, and all
universally quantified statements below hold for every fuel value.
-/

instance {ε α : Type} [DecidableEq ε] [DecidableEq α] : DecidableEq (Except ε α) :=
  fun a b =>
    match a, b with
    | .ok x, .ok y =>
        if h : x = y then .isTrue (by rw [h]) else .isFalse (by intro hc; cases hc; exact h rfl)
    | .error x, .error y =>
        if h : x = y then .isTrue (by rw [h]) else .isFalse (by intro hc; cases hc; exact h rfl)
    | .ok _, .error _ => .isFalse (by intro hc; cases hc)
    | .error _, .ok _ => .isFalse (by intro hc; cases hc)

instance : Fact (Nat.Prime 17) := ⟨by norm_num⟩

/-- `Op` from `circuit.rs`: the per-row gate selector. -/
inductive Op where
  | Add : Op
  | Mul : Op
deriving DecidableEq, Repr

/-- `InputConfig` from `circuit.rs`. -/
structure InputConfig where
  n_pub : Nat
  n_priv : Nat
deriving DecidableEq, Repr

/-- `InputConfig::total_input`. -/
def InputConfig.total_input (c : InputConfig) : Nat :=
  c.n_pub + c.n_priv

/-- `Cellref` from `circuit.rs`: a builder-time reference, either a 1-based
input index or an absolute wire-cell address. -/
inductive Cellref where
  | Input : Nat → Cellref
  | Wire : Nat → Cellref
deriving DecidableEq, Repr

/-- `Circuit` from `circuit.rs` (the immutable built form). -/
structure Circuit where
  input_config : InputConfig
  selectors : List Op
  copy_constraints : List (List Nat)
  n_cells : Nat
  n_rows : Nat
  output : Nat
deriving DecidableEq, Repr

/-- `Circuit::n_inputs`. -/
def Circuit.n_inputs (c : Circuit) : Nat :=
  c.input_config.total_input

/-- `Circuit::get_copy_constraints`: linear scan for the first stored set
containing `id` (`self.copy_constraints.iter().find(|v| v.contains(&id))`). -/
def Circuit.get_copy_constraints (c : Circuit) (id : Nat) : Option (List Nat) :=
  c.copy_constraints.find? (fun v => decide (id ∈ v))

/-- `Circuit::get_selector`: `self.selectors.get(row).copied()`. -/
def Circuit.get_selector (c : Circuit) (row : Nat) : Option Op :=
  c.selectors[row]?

/-- `CircuitBuilder` from `circuit.rs`. -/
structure CircuitBuilder where
  current_row : Nat
  ops : List Op
  wiring_pairs : List (Cellref × Cellref)
  input_config : InputConfig
deriving DecidableEq, Repr

/-- `CircuitBuilder::new`. -/
def CircuitBuilder.new (input_config : InputConfig) : CircuitBuilder :=
  { current_row := 0, ops := [], wiring_pairs := [], input_config := input_config }

/-- `CircuitBuilder::get_input_refs`.  Faithful to the source, including the
range bounds `(1..=pb_len + 1)` for the public block and
`(pb_len + 1..=pb_len + prv_len)` for the private block. -/
def CircuitBuilder.get_input_refs (b : CircuitBuilder) : List Cellref × List Cellref :=
  let pb_len := b.input_config.n_pub
  let prv_len := b.input_config.n_priv
  ((List.range' 1 (pb_len + 1)).map Cellref.Input,
   (List.range' (pb_len + 1) prv_len).map Cellref.Input)

/-- `CircuitBuilder::validate_cell_ref`. -/
def CircuitBuilder.validate_cell_ref (b : CircuitBuilder) (cell : Cellref) :
    Except String Unit :=
  let n_input := b.input_config.total_input
  match cell with
  | .Input x =>
      if x = 0 ∨ n_input < x then
        .error ("Input " ++ toString x ++ " does not exist.")
      else
        .ok ()
  | .Wire x =>
      if b.current_row * 3 ≤ x then
        .error ("Wire " ++ toString x ++ " does not exist.")
      else
        .ok ()

/-- `CircuitBuilder::add_wire_constraint`: pushes the pair, no validation. -/
def CircuitBuilder.add_wire_constraint (b : CircuitBuilder) (x y : Cellref) :
    CircuitBuilder :=
  { b with wiring_pairs := b.wiring_pairs ++ [(x, y)] }

/-- `CircuitBuilder::add_addition`.  On success returns the new row's `out`
cell reference together with the updated builder. -/
def CircuitBuilder.add_addition (b : CircuitBuilder) (lhs rhs : Cellref) :
    Except String (Cellref × CircuitBuilder) := do
  (b.validate_cell_ref lhs).mapError (fun e => "LHS: " ++ e)
  (b.validate_cell_ref rhs).mapError (fun e => "RHS: " ++ e)
  let pos := b.current_row * 3
  let b1 := { b with ops := b.ops ++ [Op.Add], current_row := b.current_row + 1 }
  let b2 := b1.add_wire_constraint lhs (.Wire pos)
  let b3 := b2.add_wire_constraint rhs (.Wire (pos + 1))
  .ok (.Wire (pos + 2), b3)

/-- `CircuitBuilder::add_multiplication`. -/
def CircuitBuilder.add_multiplication (b : CircuitBuilder) (lhs rhs : Cellref) :
    Except String (Cellref × CircuitBuilder) := do
  (b.validate_cell_ref lhs).mapError (fun e => "LHS: " ++ e)
  (b.validate_cell_ref rhs).mapError (fun e => "RHS: " ++ e)
  let pos := b.current_row * 3
  let b1 := { b with ops := b.ops ++ [Op.Mul], current_row := b.current_row + 1 }
  let b2 := b1.add_wire_constraint lhs (.Wire pos)
  let b3 := b2.add_wire_constraint rhs (.Wire (pos + 1))
  .ok (.Wire (pos + 2), b3)

/-- Message for a Rust `usize` subtraction underflow panic (debug build). -/
def sub_overflow_msg : String := "panic: attempt to subtract with overflow"

/-- Checked `usize` subtraction: Rust `a - b` panics in debug builds when
`b > a`. -/
def checked_sub (a b : Nat) : Except String Nat :=
  if b ≤ a then .ok (a - b) else .error sub_overflow_msg

/-- Address resolution performed inside `CircuitBuilder::build`'s wiring
fold: a `Wire` is its own address, an `Input` at 1-based index `x` resolves
to `n_cells - x` (which panics on underflow when `x > n_cells`). -/
def resolve_ref (n_cells : Nat) : Cellref → Except String Nat
  | .Wire x => .ok x
  | .Input x => checked_sub n_cells x

/-- `HashSet::insert` on a duplicate-free list model of a set. -/
def insert_elem (s : List Nat) (y : Nat) : List Nat :=
  if y ∈ s then s else y :: s

/-- `wirings.iter_mut().find(|set| set.contains(&x))` followed by
`wire_set.insert(y)`: insert `y` into the first set containing `x`,
returning `none` when no set contains `x`. -/
def insert_into_first (x y : Nat) : List (List Nat) → Option (List (List Nat))
  | [] => none
  | s :: rest =>
      if x ∈ s then
        some (insert_elem s y :: rest)
      else
        (insert_into_first x y rest).map (fun r => s :: r)

/-- One step of `build`'s wiring fold over a resolved pair `(x, y)`:
if some set contains `x`, insert `y` there; else if some set contains `y`,
insert `x` there; else push a fresh set `{x, y}`. -/
def wiring_step (sets : List (List Nat)) (p : Nat × Nat) : List (List Nat) :=
  match insert_into_first p.1 p.2 sets with
  | some sets2 => sets2
  | none =>
      match insert_into_first p.2 p.1 sets with
      | some sets2 => sets2
      | none => sets ++ [if p.1 = p.2 then [p.1] else [p.1, p.2]]

/-- The initial wiring collection of `build`: one singleton set per input
cell, `id = n_cells - input_number` for `input_number` in `1..=n_input`,
in that order. -/
def init_sets (n_input n_cells : Nat) : List (List Nat) :=
  (List.range' 1 n_input).map (fun k => [n_cells - k])

/-- Resolution of every recorded pair, in declaration order. -/
def resolve_pairs (n_cells : Nat) : List (Cellref × Cellref) →
    Except String (List (Nat × Nat))
  | [] => .ok []
  | p :: ps => do
      let x ← resolve_ref n_cells p.1
      let y ← resolve_ref n_cells p.2
      let rest ← resolve_pairs n_cells ps
      .ok ((x, y) :: rest)

/-- `CircuitBuilder::build`.  The initial collection holds one singleton set
per input cell, every recorded pair is resolved and folded in declaration
order, each resulting set is emitted sorted, and `output` is
`current_row * 3 - 1` (a panicking subtraction when no row was declared). -/
def CircuitBuilder.build (b : CircuitBuilder) : Except String Circuit := do
  let n_input := b.input_config.total_input
  let n_cells := n_input + b.current_row * 3
  let pairs ← resolve_pairs n_cells b.wiring_pairs
  let wirings := pairs.foldl wiring_step (init_sets n_input n_cells)
  let output ← checked_sub (b.current_row * 3) 1
  .ok { input_config := b.input_config
        selectors := b.ops
        copy_constraints := wirings.map (List.insertionSort (· ≤ ·))
        n_cells := n_cells
        n_rows := b.current_row
        output := output }

/-- A recorded call against a `CircuitBuilder`, used to quantify over
"every sequence of builder calls". -/
inductive BuilderCmd where
  | addAddition : Cellref → Cellref → BuilderCmd
  | addMultiplication : Cellref → Cellref → BuilderCmd
  | addWireConstraint : Cellref → Cellref → BuilderCmd
deriving DecidableEq, Repr

/-- Whether a command is a direct `add_wire_constraint` call (as opposed to
a validated gate call). -/
def BuilderCmd.isWire : BuilderCmd → Bool
  | .addWireConstraint _ _ => true
  | _ => false

/-- Run one builder call; gate calls propagate their validation error. -/
def runCmd (b : CircuitBuilder) : BuilderCmd → Except String CircuitBuilder
  | .addAddition l r =>
      match b.add_addition l r with
      | .error e => .error e
      | .ok (_, b') => .ok b'
  | .addMultiplication l r =>
      match b.add_multiplication l r with
      | .error e => .error e
      | .ok (_, b') => .ok b'
  | .addWireConstraint l r => .ok (b.add_wire_constraint l r)

/-- Run a sequence of builder calls, failing as soon as one fails
(modelling a caller whose calls all succeeded). -/
def runCmds (b : CircuitBuilder) : List BuilderCmd → Except String CircuitBuilder
  | [] => .ok b
  | c :: cs => do
      let b' ← runCmd b c
      runCmds b' cs

/-! ## Witness engine (`prover.rs`, `Prover::calculate_witness`) -/

/-- Message for the `expect` on `get_input_val` in `calculate_witness`. -/
def input_val_msg : String := "panic: Value within 0..total_input should not panic"

/-- Message for the `unwrap` of `get_copy_constraints` in
`calculate_witness` (an address covered by no copy-constraint set). -/
def copy_lookup_msg : String := "panic: copy constraint set lookup returned None"

/-- Message for an out-of-bounds `trace[...] = Some(value)` write. -/
def oob_write_msg : String := "panic: index out of bounds"

/-- Message for the operand `unwrap`s `trace[id - 2].unwrap()` /
`trace[id - 1].unwrap()` in the queue loop. -/
def operand_msg : String := "panic: operand unwrap returned None"

/-- Message for the `unwrap` of `get_selector` in the queue loop. -/
def selector_msg : String := "panic: selector unwrap returned None"

/-- Model artefact: the fuel bound of the modelled `while` loop ran out.
Every statement below is quantified over all fuel values. -/
def fuel_msg : String := "model: loop fuel exhausted"

/-- The `ok_or` error of the final trace collection. -/
def incomplete_msg : String := "Not all the cells are filled"

/-- `Op` applied as in the queue loop: `Add`→sum, `Mul`→product. -/
def Op.apply {F : Type} [CommRing F] : Op → F → F → F
  | .Add, lhs, rhs => lhs + rhs
  | .Mul, lhs, rhs => lhs * rhs

/-- `trace[i] = Some(value)`: indexing panics when `i` is out of bounds. -/
def write_cell {F : Type} (t : List (Option F)) (i : Nat) (v : F) :
    Except String (List (Option F)) :=
  if i < t.length then .ok (t.set i (some v)) else .error oob_write_msg

/-- `Prover::get_input_val`: public inputs first, then private ones. -/
def get_input_val {F : Type} (pub priv : List F) (i : Nat) : Option F :=
  if i < pub.length then pub[i]? else priv[i - pub.length]?

/-- The `for_each` body shared by both phases of `calculate_witness`
(a left-to-right traversal of the copy-constraint set): assign `value` at
every address of the set, and after each assignment enqueue the row's
`out` cell when the row just became ready (`lhs` and `rhs` assigned,
`out` not yet). -/
def propagate_set {F : Type} [CommRing F] (circ : Circuit) (v : F) :
    List Nat → List (Option F) → List Nat →
    Except String (List (Option F) × List Nat)
  | [], t0, q0 => .ok (t0, q0)
  | cell_id :: srest, t0, q0 =>
      match write_cell t0 cell_id v with
      | .error e => .error e
      | .ok t =>
          let row := cell_id / 3
          if row < circ.n_rows then
            if (t.getD (row * 3) none).isSome && (t.getD (row * 3 + 1) none).isSome &&
                (t.getD (row * 3 + 2) none).isNone then
              propagate_set circ v srest t (q0 ++ [row * 3 + 2])
            else
              propagate_set circ v srest t q0
          else
            propagate_set circ v srest t q0

/-- The input loop of `calculate_witness` over the declared input indices:
assign input `i` at address `n_cells - (i + 1)` and propagate it through
its copy-constraint set, collecting the initial evaluation queue. -/
def input_phase_go {F : Type} [CommRing F] (circ : Circuit) (pub priv : List F) :
    List Nat → List (Option F) × List Nat →
    Except String (List (Option F) × List Nat)
  | [], st => .ok st
  | i :: is, st =>
      match get_input_val pub priv i with
      | none => .error input_val_msg
      | some v =>
          match write_cell st.1 (circ.n_cells - (i + 1)) v with
          | .error e => .error e
          | .ok t =>
              match circ.get_copy_constraints (circ.n_cells - (i + 1)) with
              | none => .error copy_lookup_msg
              | some s =>
                  match propagate_set circ v s t st.2 with
                  | .error e => .error e
                  | .ok st' => input_phase_go circ pub priv is st'

/-- The input phase of `calculate_witness`: the loop above over
`0..n_inputs`, starting from the all-unset trace and the empty queue. -/
def input_phase {F : Type} [CommRing F] (circ : Circuit) (pub priv : List F) :
    Except String (List (Option F) × List Nat) :=
  input_phase_go circ pub priv (List.range circ.n_inputs)
    (List.replicate circ.n_cells (none : Option F), ([] : List Nat))

/-- The queue loop of `calculate_witness` (`while let Some(id) = ...`),
with explicit fuel standing in for the loop's (unbounded) iteration. -/
def drain {F : Type} [CommRing F] (circ : Circuit) :
    Nat → List (Option F) → List Nat → Except String (List (Option F))
  | 0, _, _ => .error fuel_msg
  | _ + 1, t, [] => .ok t
  | fuel + 1, t, id :: rest =>
    match t.getD (id - 2) none with
    | none => .error operand_msg
    | some lhs =>
      match t.getD (id - 1) none with
      | none => .error operand_msg
      | some rhs =>
        match circ.get_selector (id / 3) with
        | none => .error selector_msg
        | some op =>
          let v := op.apply lhs rhs
          match write_cell t id v with
          | .error e => .error e
          | .ok t1 =>
            if id = circ.output then
              drain circ fuel t1 rest
            else
              match circ.get_copy_constraints id with
              | none => .error copy_lookup_msg
              | some s =>
                  match propagate_set circ v s t1 rest with
                  | .error e => .error e
                  | .ok (t2, q2) => drain circ fuel t2 q2

/-- Both phases of `calculate_witness`, before the final completeness
check. -/
def witness_phases {F : Type} [CommRing F] (fuel : Nat) (circ : Circuit)
    (pub priv : List F) : Except String (List (Option F)) :=
  match input_phase circ pub priv with
  | .error e => .error e
  | .ok (t, q) => drain circ fuel t q

/-- `trace.into_iter().collect::<Option<Vec<_>>>().ok_or(...)`. -/
def collect_trace {F : Type} : List (Option F) → Except String (List F)
  | [] => .ok []
  | none :: _ => .error incomplete_msg
  | some v :: rest =>
      match collect_trace rest with
      | .error e => .error e
      | .ok vs => .ok (v :: vs)

/-- `Prover::calculate_witness`, returning the computation trace that the
prover stores on success. -/
def calculate_witness {F : Type} [CommRing F] (fuel : Nat) (circ : Circuit)
    (pub priv : List F) : Except String (List F) :=
  match witness_phases fuel circ pub priv with
  | .error e => .error e
  | .ok t => collect_trace t

/-- The property a witness trace is supposed to satisfy, row by row:
`trace[3r+2] = trace[3r] + trace[3r+1]` for an `Add` row and
`trace[3r+2] = trace[3r] * trace[3r+1]` for a `Mul` row. -/
def gate_equations_hold {F : Type} [CommRing F] (circ : Circuit) (t : List F) : Prop :=
  ∀ r < circ.n_rows,
    t.getD (3 * r + 2) 0 =
      (circ.selectors.getD r Op.Add).apply (t.getD (3 * r) 0) (t.getD (3 * r + 1) 0)

/-- The property that all addresses within each copy-constraint set of the
circuit hold equal values. -/
def copy_constraints_hold {F : Type} [CommRing F] (circ : Circuit) (t : List F) : Prop :=
  ∀ s ∈ circ.copy_constraints, ∀ a ∈ s, ∀ b ∈ s, t.getD a 0 = t.getD b 0

instance {F : Type} [CommRing F] [DecidableEq F] (circ : Circuit) (t : List F) :
    Decidable (gate_equations_hold circ t) := by
  unfold gate_equations_hold; infer_instance

instance {F : Type} [CommRing F] [DecidableEq F] (circ : Circuit) (t : List F) :
    Decidable (copy_constraints_hold circ t) := by
  unfold copy_constraints_hold; infer_instance

/-! ## Polynomial encoding (`prover.rs`, `common.rs`, `setup.rs`)

An arkworks `GeneralEvaluationDomain` of size `N` (a power of two) is the
set of points `ω^0, …, ω^(N-1)` for a primitive `N`-th root of unity `ω`;
`domain.ifft(&evals)` zero-pads `evals` to length `N` and returns the
coefficients of the unique polynomial of degree `< N` interpolating the
padded evaluations, i.e. the inverse discrete Fourier transform
`c_k = N⁻¹ · ∑_j evals_j · ω^(-j·k)`.  The embedding takes the root `ω` as
an explicit parameter together with the hypotheses the arkworks domain
guarantees (`ω^N = 1`, `ω^j ≠ 1` for `0 < j < N`, `N` invertible). -/

/-- `usize::checked_next_power_of_two` on `Nat` (no overflow): the smallest
power of two that is `≥ n`, with `0 → 1`, computed by doubling. -/
def np2_go : Nat → Nat → Nat → Nat
  | 0, _, power => power
  | fuel + 1, n, power => if power < n then np2_go fuel n (power * 2) else power

/-- Rust's `next_power_of_two` semantics. -/
def next_power_of_two (n : Nat) : Nat :=
  np2_go n n 1

/-- Inverse discrete Fourier transform over the size-`N` domain generated
by `ω`, applied to `v` zero-padded to length `N`: the model of
`domain.ifft(&v)`, returned as the polynomial's coefficient list. -/
def idft {F : Type} [Field F] (ω : F) (N : Nat) (v : List F) : List F :=
  (List.range N).map
    (fun k => (N : F)⁻¹ * ∑ j ∈ Finset.range N, v.getD j 0 * ω⁻¹ ^ (j * k))

/-- Evaluation of a coefficient list as a polynomial:
`c_0 + c_1·x + … + c_(len-1)·x^(len-1)`. -/
def eval_poly {F : Type} [Field F] (c : List F) (x : F) : F :=
  ∑ k ∈ Finset.range c.length, c.getD k 0 * x ^ k

/-- `Prover::compute_trace_polynomial`: interpolate the stored computation
trace over the domain of size `next_power_of_two(n_cells)`. -/
def compute_trace_polynomial {F : Type} [Field F] (ω : F) (circ : Circuit)
    (trace : List F) : List F :=
  idft ω (next_power_of_two circ.n_cells) trace

/-- The `Add`/`Mul` field constants used by `common.rs`'s
`compute_selector_polynomial` (the one `Prover::prove` calls):
`Add → F::ONE`, `Mul → F::ZERO`. -/
def common_op_const {F : Type} [Field F] : Op → F
  | .Add => 1
  | .Mul => 0

/-- The `Add`/`Mul` field constants used by `setup.rs`'s
`compute_selector_polynomial`: `Add → F::ZERO`, `Mul → F::ONE`. -/
def setup_op_const {F : Type} [Field F] : Op → F
  | .Add => 0
  | .Mul => 1

/-- The evaluation vector built by `common.rs`: `vec![selectors[0]]`
(a panicking index when there are no rows, modelled as an error) followed
by `0, 0, v` for each remaining selector value `v` — one selector constant
at every third domain point. -/
def common_selector_evals {F : Type} [Field F] (circ : Circuit) :
    Except String (List F) :=
  match circ.selectors.map common_op_const with
  | [] => .error oob_write_msg
  | s0 :: rest => .ok (s0 :: (rest.map (fun v => [(0 : F), 0, v])).flatten)

/-- `common.rs`'s `compute_selector_polynomial` (used inside
`Prover::prove`): domain size `next_power_of_two(n_cells)`. -/
def common_compute_selector_polynomial {F : Type} [Field F] (ω : F)
    (circ : Circuit) : Except String (List F) := do
  let evals ← common_selector_evals (F := F) circ
  .ok (idft ω (next_power_of_two circ.n_cells) evals)

/-- `setup.rs`'s `compute_selector_polynomial` (used inside `setup`):
domain size `next_power_of_two(n_rows)`, one consecutive point per row,
opposite `Add`/`Mul` constants. -/
def setup_compute_selector_polynomial {F : Type} [Field F] (ω : F)
    (circ : Circuit) : List F :=
  idft ω (next_power_of_two circ.n_rows) (circ.selectors.map setup_op_const)

/-! ## The worked example and the counterexample circuits -/

/-- The builder calls of the worked example
`out = (pub0 + priv0) * pub1 + priv0` with `n_pub = 2`, `n_priv = 1`
(`pub0 = Input 1`, `pub1 = Input 2`, `priv0 = Input 3`, exactly the refs
`get_input_refs` hands out for this configuration). -/
def example_cmds : List BuilderCmd :=
  [ .addAddition (.Input 1) (.Input 3),
    .addMultiplication (.Wire 2) (.Input 2),
    .addAddition (.Wire 5) (.Input 3) ]

/-- The circuit the worked example builds (proved below to be exactly what
`build` returns on `example_cmds`). -/
def example_circuit : Circuit :=
  { input_config := { n_pub := 2, n_priv := 1 }
    selectors := [Op.Add, Op.Mul, Op.Add]
    copy_constraints := [[0, 11], [4, 10], [1, 7, 9], [2, 3], [5, 6]]
    n_cells := 12
    n_rows := 3
    output := 8 }

/-- A circuit whose manual `add_wire_constraint` calls make
`calculate_witness` succeed with a trace violating both a gate equation
and a copy constraint: wire cell 2 (row 0's `out`) is tied to input 1
before row 0 exists, so input propagation pre-fills it, and the one gate
the queue evaluates (row 1) writes a conflicting value into the large
copy set. -/
def unsound_cmds : List BuilderCmd :=
  [ .addWireConstraint (.Input 1) (.Wire 2),
    .addAddition (.Input 1) (.Input 2),
    .addAddition (.Input 1) (.Input 1),
    .addWireConstraint (.Input 1) (.Wire 5) ]

/-- The circuit built from `unsound_cmds` (proved below). -/
def unsound_circuit : Circuit :=
  { input_config := { n_pub := 2, n_priv := 0 }
    selectors := [Op.Add, Op.Add]
    copy_constraints := [[0, 2, 3, 4, 5, 7], [1, 6]]
    n_cells := 8
    n_rows := 2
    output := 5 }

/-- A gates-only circuit on which `calculate_witness` panics: row 0's
`out` (cell 2) is used by no later gate, so it lies in no copy-constraint
set, and the queue loop's `get_copy_constraints(id).unwrap()` panics after
computing it. -/
def dangling_cmds : List BuilderCmd :=
  [ .addAddition (.Input 1) (.Input 1),
    .addAddition (.Input 1) (.Input 1) ]

/-- The circuit built from `dangling_cmds` (proved below). -/
def dangling_circuit : Circuit :=
  { input_config := { n_pub := 1, n_priv := 0 }
    selectors := [Op.Add, Op.Add]
    copy_constraints := [[0, 1, 3, 4, 6]]
    n_cells := 7
    n_rows := 2
    output := 5 }

/-! ## Predicates used to state the structural claims -/

/-- `a` is covered by some set of the collection. -/
def mem_sets (a : Nat) (sets : List (List Nat)) : Prop :=
  ∃ s ∈ sets, a ∈ s

/-- The sets of the collection are pairwise disjoint. -/
def sets_pairwise_disjoint (sets : List (List Nat)) : Prop :=
  sets.Pairwise (fun s t => ∀ a, a ∈ s → a ∉ t)

/-- The validity predicate `validate_cell_ref` enforces at row `r` of a
builder with `nin` declared inputs. -/
def valid_ref (nin r : Nat) : Cellref → Prop
  | .Input i => 1 ≤ i ∧ i ≤ nin
  | .Wire w => w < r * 3

/-- The shape of the `wiring_pairs` list of a builder that recorded pairs
only through validated gate calls: rows in order, each contributing
`(lhs, Wire (3r))` and `(rhs, Wire (3r+1))` with operands valid at the
row's creation time. -/
inductive GateShaped (nin : Nat) : Nat → List (Cellref × Cellref) → Prop where
  | nil : GateShaped nin 0 []
  | cons {r : Nat} {ps : List (Cellref × Cellref)} {l rr : Cellref} :
      GateShaped nin r ps → valid_ref nin r l → valid_ref nin r rr →
      GateShaped nin (r + 1) (ps ++ [(l, .Wire (r * 3)), (rr, .Wire (r * 3 + 1))])

/-- Invariant of the evaluation queue: every queued address is a row's
`out` cell of an existing row whose two operand cells are already
assigned. -/
def queue_ok {F : Type} (circ : Circuit) (t : List (Option F)) (q : List Nat) : Prop :=
  ∀ id ∈ q, id % 3 = 2 ∧ id / 3 < circ.n_rows ∧
    (t.getD (id - 2) none).isSome = true ∧ (t.getD (id - 1) none).isSome = true

/-- An `Input` reference's index is at most `n` (`Wire` references are
unconstrained): the condition under which `build`'s address resolution
`n_cells - i` cannot underflow. -/
def ref_input_le (n : Nat) : Cellref → Prop
  | .Input i => i ≤ n
  | .Wire _ => True

instance (n : Nat) (c : Cellref) : Decidable (ref_input_le n c) :=
  match c with
  | .Input i => (inferInstance : Decidable (i ≤ n))
  | .Wire _ => (inferInstance : Decidable True)

/-- Every `Input` reference among the recorded pairs has index at most
`n`, so that `build`'s address resolution `n_cells - i` cannot underflow. -/
def input_refs_le (n : Nat) (ps : List (Cellref × Cellref)) : Prop :=
  ∀ p ∈ ps, ref_input_le n p.1 ∧ ref_input_le n p.2

instance (n : Nat) (ps : List (Cellref × Cellref)) : Decidable (input_refs_le n ps) := by
  unfold input_refs_le
  infer_instance

/-- The builder state reached by the worked example's calls (proved below). -/
def example_builder : CircuitBuilder :=
  { current_row := 3
    ops := [Op.Add, Op.Mul, Op.Add]
    wiring_pairs := [(.Input 1, .Wire 0), (.Input 3, .Wire 1), (.Wire 2, .Wire 3),
      (.Input 2, .Wire 4), (.Wire 5, .Wire 6), (.Input 3, .Wire 7)]
    input_config := { n_pub := 2, n_priv := 1 } }

/-- The builder state reached by `unsound_cmds` (proved below). -/
def unsound_builder : CircuitBuilder :=
  { current_row := 2
    ops := [Op.Add, Op.Add]
    wiring_pairs := [(.Input 1, .Wire 2), (.Input 1, .Wire 0), (.Input 2, .Wire 1),
      (.Input 1, .Wire 3), (.Input 1, .Wire 4), (.Input 1, .Wire 5)]
    input_config := { n_pub := 2, n_priv := 0 } }

/-- The builder state reached by `dangling_cmds` (proved below). -/
def dangling_builder : CircuitBuilder :=
  { current_row := 2
    ops := [Op.Add, Op.Add]
    wiring_pairs := [(.Input 1, .Wire 0), (.Input 1, .Wire 1), (.Input 1, .Wire 3),
      (.Input 1, .Wire 4)]
    input_config := { n_pub := 1, n_priv := 0 } }

/-- A builder holding one valid gate plus one wild `add_wire_constraint`
whose `Input 1000` reference makes `build`'s resolution underflow. -/
def wild_input_builder : CircuitBuilder :=
  { current_row := 1
    ops := [Op.Add]
    wiring_pairs := [(.Input 1, .Wire 0), (.Input 1, .Wire 1), (.Input 1000, .Wire 0)]
    input_config := { n_pub := 1, n_priv := 0 } }

/-- A builder holding exactly one valid addition gate over one input. -/
def one_gate_builder : CircuitBuilder :=
  { current_row := 1
    ops := [Op.Add]
    wiring_pairs := [(.Input 1, .Wire 0), (.Input 1, .Wire 1)]
    input_config := { n_pub := 1, n_priv := 0 } }

/-- The builder calls of the copy-constraint counterexample: one valid
gate, then a manual wire constraint linking the two operand cells, whose
resolved pair bridges two existing sets. -/
def bridge_cmds : List BuilderCmd :=
  [ .addAddition (.Input 1) (.Input 2),
    .addWireConstraint (.Wire 0) (.Wire 1) ]

/-- The builder state reached by `bridge_cmds` (proved below). -/
def bridge_builder : CircuitBuilder :=
  { current_row := 1
    ops := [Op.Add]
    wiring_pairs := [(.Input 1, .Wire 0), (.Input 2, .Wire 1), (.Wire 0, .Wire 1)]
    input_config := { n_pub := 2, n_priv := 0 } }

/-- The circuit built from `bridge_builder` (proved below): the sets
`[0, 1, 4]` and `[1, 3]` overlap at address 1. -/
def bridge_circuit : Circuit :=
  { input_config := { n_pub := 2, n_priv := 0 }
    selectors := [Op.Add]
    copy_constraints := [[0, 1, 4], [1, 3]]
    n_cells := 5
    n_rows := 1
    output := 2 }

/-- `c` is the `out` cell of an existing row: `c = 3r + 2` with `r < R`. -/
def out_cell (R c : Nat) : Prop :=
  c % 3 = 2 ∧ c / 3 < R

/-- Structure of a copy-constraint set produced by a gates-only builder
with `R` rows: it contains at most one row-`out` cell, at most one input
cell (address `≥ 3R`), and never both. -/
def gate_set_ok (R : Nat) (s : List Nat) : Prop :=
  (∀ a ∈ s, ∀ b ∈ s, out_cell R a → out_cell R b → a = b) ∧
  (∀ a ∈ s, ∀ b ∈ s, 3 * R ≤ a → 3 * R ≤ b → a = b) ∧
  (∀ a ∈ s, ∀ b ∈ s, out_cell R a → 3 * R ≤ b → False)

/-- Option-level consistency of a partial trace with the circuit's
copy-constraint sets: within each set all cells agree (all unset, or all
set to the same value). -/
def sets_consistent {F : Type} (circ : Circuit) (t : List (Option F)) : Prop :=
  ∀ s ∈ circ.copy_constraints, ∀ a ∈ s, ∀ b ∈ s, t.getD a none = t.getD b none

/-- Partial gate correctness of a partial trace: every assigned row `out`
cell holds its operation applied to its (then necessarily assigned)
operand cells. -/
def gate_partial {F : Type} [CommRing F] (circ : Circuit) (t : List (Option F)) : Prop :=
  ∀ r < circ.n_rows, ∀ w, t.getD (3 * r + 2) none = some w →
    ∃ a b, t.getD (3 * r) none = some a ∧ t.getD (3 * r + 1) none = some b ∧
      w = (circ.selectors.getD r Op.Add).apply a b

/-! ## Basic lemmas: `next_power_of_two` -/

lemma np2_go_ge {fuel n p : Nat} (h : n ≤ p * 2 ^ fuel) : n ≤ np2_go fuel n p := by
  induction fuel generalizing p with
  | zero => simpa using h
  | succ fuel ih =>
      unfold np2_go
      split
      · exact ih (by rw [pow_succ] at h; calc n ≤ p * (2 ^ fuel * 2) := h
                  _ = p * 2 * 2 ^ fuel := by ring)
      · omega

lemma le_next_power_of_two (n : Nat) : n ≤ next_power_of_two n := by
  unfold next_power_of_two
  exact np2_go_ge (by simpa using (Nat.lt_two_pow n).le)

lemma np2_go_ge_start {fuel n p : Nat} : p ≤ np2_go fuel n p := by
  induction fuel generalizing p with
  | zero => simp [np2_go]
  | succ fuel ih =>
      unfold np2_go
      split
      · exact le_trans (by omega) ih
      · omega

lemma next_power_of_two_pos (n : Nat) : 0 < next_power_of_two n :=
  lt_of_lt_of_le Nat.one_pos np2_go_ge_start

/-! ## Inverse DFT interpolation -/

section DFT

variable {F : Type} [Field F]

lemma idft_length (ω : F) (N : Nat) (v : List F) : (idft ω N v).length = N := by
  simp [idft]

lemma root_ne_zero {ω : F} {N : Nat} (hω : ω ^ N = 1) (hN : 0 < N) : ω ≠ 0 := by
  intro h
  rw [h, zero_pow hN.ne'] at hω
  exact zero_ne_one hω

lemma sum_root_pow {ω : F} {N : Nat} (hω : ω ^ N = 1)
    (hprim : ∀ j < N, 0 < j → ω ^ j ≠ 1) (hN : 0 < N)
    {i j : Nat} (hi : i < N) (hj : j < N) :
    ∑ k ∈ Finset.range N, (ω ^ i * ω⁻¹ ^ j) ^ k = if i = j then (N : F) else 0 := by
  have hω0 : ω ≠ 0 := root_ne_zero hω hN
  by_cases hij : i = j
  · subst hij
    have hone : ω ^ i * ω⁻¹ ^ i = 1 := by
      rw [← mul_pow, mul_inv_cancel₀ hω0, one_pow]
    rw [if_pos rfl, hone]
    simp
  · have hpow : ∀ a b : Nat, a < b → b < N → ω ^ a ≠ ω ^ b := by
      intro a b hab hbN he
      have : ω ^ a * ω ^ (b - a) = ω ^ a * 1 := by
        rw [mul_one, ← pow_add]
        have : a + (b - a) = b := by omega
        rw [this, he]
      have h1 : ω ^ (b - a) = 1 := mul_left_cancel₀ (pow_ne_zero a hω0) this
      exact hprim (b - a) (by omega) (by omega) h1
    have hx1 : ω ^ i * ω⁻¹ ^ j ≠ 1 := by
      intro he
      have hji : ω ^ i = ω ^ j := by
        have := congrArg (· * ω ^ j) he
        simpa [mul_assoc, inv_pow, inv_mul_cancel₀ (pow_ne_zero j hω0)] using this
      rcases Nat.lt_or_ge i j with h | h
      · exact hpow i j h hj hji
      · exact hpow j i (by omega) hi hji.symm
    have hxN : (ω ^ i * ω⁻¹ ^ j) ^ N = 1 := by
      rw [mul_pow, ← pow_mul, ← pow_mul, mul_comm i N, mul_comm j N, pow_mul, pow_mul,
        inv_pow, hω, inv_one, one_pow, one_pow, one_mul]
    rw [geom_sum_eq hx1, hxN, if_neg hij]
    simp

lemma eval_poly_idft {ω : F} {N : Nat} (hω : ω ^ N = 1)
    (hprim : ∀ j < N, 0 < j → ω ^ j ≠ 1) (hN0 : (N : F) ≠ 0) (hN : 0 < N)
    (v : List F) {i : Nat} (hi : i < N) :
    eval_poly (idft ω N v) (ω ^ i) = v.getD i 0 := by
  have hcoef : ∀ k, k < N →
      (idft ω N v).getD k 0 = (N : F)⁻¹ * ∑ j ∈ Finset.range N, v.getD j 0 * ω⁻¹ ^ (j * k) := by
    intro k hk
    unfold idft
    rw [List.getD_eq_getElem?_getD, List.getElem?_map, List.getElem?_range hk]
    rfl
  unfold eval_poly
  rw [idft_length]
  calc
    ∑ k ∈ Finset.range N, (idft ω N v).getD k 0 * (ω ^ i) ^ k
      = ∑ k ∈ Finset.range N, ∑ j ∈ Finset.range N,
          (N : F)⁻¹ * (v.getD j 0 * ((ω ^ i * ω⁻¹ ^ j) ^ k)) := by
        refine Finset.sum_congr rfl (fun k hk => ?_)
        rw [hcoef k (Finset.mem_range.mp hk), Finset.mul_sum, Finset.sum_mul]
        refine Finset.sum_congr rfl (fun j _ => ?_)
        rw [mul_pow, ← pow_mul]
        ring
    _ = ∑ j ∈ Finset.range N, (N : F)⁻¹ *
          (v.getD j 0 * ∑ k ∈ Finset.range N, (ω ^ i * ω⁻¹ ^ j) ^ k) := by
        rw [Finset.sum_comm]
        refine Finset.sum_congr rfl (fun j _ => ?_)
        rw [Finset.mul_sum, Finset.mul_sum]
    _ = v.getD i 0 := by
        rw [Finset.sum_eq_single_of_mem i (Finset.mem_range.mpr hi)]
        · rw [sum_root_pow hω hprim hN hi hi, if_pos rfl]
          field_simp
        · intro j hjm hji
          rw [sum_root_pow hω hprim hN hi (Finset.mem_range.mp hjm),
            if_neg (fun h => hji h.symm)]
          simp

end DFT

/-! ## Selector evaluation-vector characterisation -/

section SelectorEvals

variable {F : Type} [Field F]

lemma interleave_length (rest : List F) :
    ((rest.map (fun v => [(0 : F), 0, v])).flatten).length = 3 * rest.length := by
  induction rest with
  | nil => simp
  | cons v rest ih => simp [ih]; ring

lemma interleave_getD (rest : List F) (r : Nat) :
    ((rest.map (fun v => [(0 : F), 0, v])).flatten).getD (3 * r + 2) 0 = rest.getD r 0 := by
  induction rest generalizing r with
  | nil => simp
  | cons v rest ih =>
      cases r with
      | zero => simp
      | succ r =>
          have h3 : 3 * (r + 1) + 2 = (3 * r + 2) + 3 := by ring
          simp only [List.map_cons, List.flatten_cons, List.cons_append, List.nil_append, h3,
            List.getD_cons_succ]
          exact ih r

lemma common_evals_getD (s0 : F) (rest : List F) (r : Nat) :
    (s0 :: (rest.map (fun v => [(0 : F), 0, v])).flatten).getD (3 * r) 0 =
      (s0 :: rest).getD r 0 := by
  cases r with
  | zero => simp
  | succ r =>
      have h3 : 3 * (r + 1) = (3 * r + 2) + 1 := by ring
      simp only [h3, List.getD_cons_succ]
      exact interleave_getD rest r

lemma map_getD_of_lt (l : List Op) (f : Op → F) {r : Nat} (h : r < l.length) :
    (l.map f).getD r 0 = f (l.getD r Op.Add) := by
  rw [List.getD_eq_getElem?_getD, List.getD_eq_getElem?_getD, List.getElem?_map,
    List.getElem?_eq_getElem h]
  rfl

lemma common_selector_evals_ok (circ : Circuit) (h : circ.selectors ≠ []) :
    ∃ ev : List F, common_selector_evals circ = .ok ev ∧
      ev.length = 3 * circ.selectors.length - 2 ∧
      ∀ r < circ.selectors.length,
        ev.getD (3 * r) 0 = common_op_const (circ.selectors.getD r Op.Add) := by
  unfold common_selector_evals
  cases hs : circ.selectors with
  | nil => exact absurd hs h
  | cons s rest =>
      refine ⟨_, rfl, ?_, ?_⟩
      · have := interleave_length (F := F) (rest.map common_op_const)
        simp only [List.length_cons, this, List.length_map]
        omega
      · intro r hr
        have hmap : (common_op_const s : F) :: (rest.map common_op_const) =
            (s :: rest).map common_op_const := by simp
        calc
          ((common_op_const s : F) ::
              ((rest.map common_op_const).map (fun v => [(0 : F), 0, v])).flatten).getD (3 * r) 0
            = ((common_op_const s : F) :: rest.map common_op_const).getD r 0 :=
              common_evals_getD _ _ r
          _ = common_op_const ((s :: rest).getD r Op.Add) := by
              rw [hmap, map_getD_of_lt]
              simpa using hr

end SelectorEvals

/-! ## The wiring fold: membership -/

lemma insert_elem_mem {s : List Nat} {y a : Nat} :
    a ∈ insert_elem s y ↔ a ∈ s ∨ a = y := by
  unfold insert_elem
  split
  · constructor
    · exact Or.inl
    · rintro (h | rfl)
      · exact h
      · assumption
  · simp [or_comm]

lemma insert_into_first_none {x y : Nat} {sets : List (List Nat)} :
    insert_into_first x y sets = none ↔ ∀ s ∈ sets, x ∉ s := by
  induction sets with
  | nil => simp [insert_into_first]
  | cons s rest ih =>
      unfold insert_into_first
      split
      · rename_i hxs
        simp only [reduceCtorEq, false_iff]
        intro hall
        exact hall s (by simp) hxs
      · rw [Option.map_eq_none', ih]
        constructor
        · intro h t ht
          rcases List.mem_cons.mp ht with rfl | ht
          · assumption
          · exact h t ht
        · intro h t ht
          exact h t (List.mem_cons_of_mem _ ht)

lemma insert_into_first_some {x y : Nat} {sets sets' : List (List Nat)}
    (h : insert_into_first x y sets = some sets') :
    ∃ pre s post, sets = pre ++ s :: post ∧ x ∈ s ∧ (∀ t ∈ pre, x ∉ t) ∧
      sets' = pre ++ insert_elem s y :: post := by
  induction sets generalizing sets' with
  | nil => simp [insert_into_first] at h
  | cons s rest ih =>
      unfold insert_into_first at h
      split at h
      · refine ⟨[], s, rest, by simp, by assumption, by simp, ?_⟩
        cases h
        simp
      · rcases Option.map_eq_some'.mp h with ⟨r', hr', rfl⟩
        rcases ih hr' with ⟨pre, t, post, hsets, hx, hpre, hr⟩
        refine ⟨s :: pre, t, post, by rw [hsets]; simp, hx, ?_, by rw [hr]; simp⟩
        intro u hu
        rcases List.mem_cons.mp hu with rfl | hu
        · assumption
        · exact hpre u hu

lemma mem_sets_append {a : Nat} {s1 s2 : List (List Nat)} :
    mem_sets a (s1 ++ s2) ↔ mem_sets a s1 ∨ mem_sets a s2 := by
  unfold mem_sets
  constructor
  · rintro ⟨s, hs, ha⟩
    rcases List.mem_append.mp hs with h | h
    · exact Or.inl ⟨s, h, ha⟩
    · exact Or.inr ⟨s, h, ha⟩
  · rintro (⟨s, hs, ha⟩ | ⟨s, hs, ha⟩)
    · exact ⟨s, List.mem_append.mpr (Or.inl hs), ha⟩
    · exact ⟨s, List.mem_append.mpr (Or.inr hs), ha⟩

lemma insert_into_first_some_mem {x y : Nat} {sets sets' : List (List Nat)}
    (h : insert_into_first x y sets = some sets') :
    mem_sets x sets ∧ ∀ a, (mem_sets a sets' ↔ mem_sets a sets ∨ a = y) := by
  rcases insert_into_first_some h with ⟨pre, s, post, hsets, hx, _, hsets'⟩
  subst hsets hsets'
  constructor
  · exact ⟨s, by simp, hx⟩
  · intro a
    rw [mem_sets_append, mem_sets_append]
    unfold mem_sets
    simp only [List.mem_cons]
    constructor
    · rintro (h | ⟨t, rfl | ht, hat⟩)
      · exact Or.inl (Or.inl h)
      · rcases insert_elem_mem.mp hat with h | rfl
        · exact Or.inl (Or.inr ⟨s, Or.inl rfl, h⟩)
        · exact Or.inr rfl
      · exact Or.inl (Or.inr ⟨t, Or.inr ht, hat⟩)
    · rintro ((h | ⟨t, rfl | ht, hat⟩) | rfl)
      · exact Or.inl h
      · exact Or.inr ⟨insert_elem t y, Or.inl rfl, insert_elem_mem.mpr (Or.inl hat)⟩
      · exact Or.inr ⟨t, Or.inr ht, hat⟩
      · exact Or.inr ⟨insert_elem s a, Or.inl rfl, insert_elem_mem.mpr (Or.inr rfl)⟩

lemma wiring_step_mem {sets : List (List Nat)} {p : Nat × Nat} (a : Nat) :
    mem_sets a (wiring_step sets p) ↔ mem_sets a sets ∨ a = p.1 ∨ a = p.2 := by
  unfold wiring_step
  cases h1 : insert_into_first p.1 p.2 sets with
  | some sets2 =>
      rcases insert_into_first_some_mem h1 with ⟨hx, hmem⟩
      rw [hmem a]
      constructor
      · rintro (h | rfl)
        · exact Or.inl h
        · exact Or.inr (Or.inr rfl)
      · rintro (h | rfl | rfl)
        · exact Or.inl h
        · exact Or.inl hx
        · exact Or.inr rfl
  | none =>
      cases h2 : insert_into_first p.2 p.1 sets with
      | some sets2 =>
          rcases insert_into_first_some_mem h2 with ⟨hy, hmem⟩
          rw [hmem a]
          constructor
          · rintro (h | rfl)
            · exact Or.inl h
            · exact Or.inr (Or.inl rfl)
          · rintro (h | rfl | rfl)
            · exact Or.inl h
            · exact Or.inr rfl
            · exact Or.inl hy
      | none =>
          rw [mem_sets_append]
          have hsingle : mem_sets a [if p.1 = p.2 then [p.1] else [p.1, p.2]] ↔
              a = p.1 ∨ a = p.2 := by
            unfold mem_sets
            split
            · rename_i hpp
              simp [hpp]
            · simp
          rw [hsingle]

lemma foldl_wiring_step_mem (ps : List (Nat × Nat)) (init : List (List Nat)) (a : Nat) :
    mem_sets a (ps.foldl wiring_step init) ↔
      mem_sets a init ∨ ∃ p ∈ ps, a = p.1 ∨ a = p.2 := by
  induction ps generalizing init with
  | nil => simp
  | cons p ps ih =>
      rw [List.foldl_cons, ih, wiring_step_mem a]
      constructor
      · rintro ((h | h | h) | ⟨q, hq, hqa⟩)
        · exact Or.inl h
        · exact Or.inr ⟨p, by simp, Or.inl h⟩
        · exact Or.inr ⟨p, by simp, Or.inr h⟩
        · exact Or.inr ⟨q, List.mem_cons_of_mem _ hq, hqa⟩
      · rintro (h | ⟨q, hq, hqa⟩)
        · exact Or.inl (Or.inl h)
        · rcases List.mem_cons.mp hq with rfl | hq
          · exact Or.inl (Or.inr hqa)
          · exact Or.inr ⟨q, hq, hqa⟩

lemma init_sets_mem (n_input n_cells a : Nat) :
    mem_sets a (init_sets n_input n_cells) ↔
      ∃ k, 1 ≤ k ∧ k ≤ n_input ∧ a = n_cells - k := by
  unfold init_sets mem_sets
  constructor
  · rintro ⟨s, hs, ha⟩
    rcases List.mem_map.mp hs with ⟨k, hk, rfl⟩
    rcases List.mem_range'_1.mp hk with ⟨h1, h2⟩
    exact ⟨k, h1, by omega, by simpa using ha⟩
  · rintro ⟨k, h1, h2, rfl⟩
    exact ⟨[n_cells - k], List.mem_map.mpr ⟨k, List.mem_range'_1.mpr ⟨h1, by omega⟩, rfl⟩,
      by simp⟩

lemma mem_sets_map_sort (sets : List (List Nat)) (a : Nat) :
    mem_sets a (sets.map (List.insertionSort (· ≤ ·))) ↔ mem_sets a sets := by
  unfold mem_sets
  constructor
  · rintro ⟨s, hs, ha⟩
    rcases List.mem_map.mp hs with ⟨t, ht, rfl⟩
    exact ⟨t, ht, (List.perm_insertionSort _ t).mem_iff.mp ha⟩
  · rintro ⟨s, hs, ha⟩
    exact ⟨s.insertionSort (· ≤ ·), List.mem_map.mpr ⟨s, hs, rfl⟩,
      (List.perm_insertionSort _ s).mem_iff.mpr ha⟩

/-! ## `build`: success characterisation -/

lemma except_bind_ok {ε α β : Type} (a : α) (f : α → Except ε β) :
    Except.bind (Except.ok a) f = f a := rfl

lemma except_bind_error {ε α β : Type} (e : ε) (f : α → Except ε β) :
    Except.bind (Except.error e : Except ε α) f = Except.error e := rfl

lemma resolve_pairs_cons (C : Nat) (p : Cellref × Cellref) (ps : List (Cellref × Cellref)) :
    resolve_pairs C (p :: ps) =
      Except.bind (resolve_ref C p.1) (fun x =>
        Except.bind (resolve_ref C p.2) (fun y =>
          Except.bind (resolve_pairs C ps) (fun rest => .ok ((x, y) :: rest)))) := rfl

lemma build_unfold (b : CircuitBuilder) :
    b.build =
      Except.bind
        (resolve_pairs (b.input_config.total_input + b.current_row * 3) b.wiring_pairs)
        (fun rps =>
          Except.bind (checked_sub (b.current_row * 3) 1) (fun output =>
            .ok { input_config := b.input_config
                  selectors := b.ops
                  copy_constraints :=
                    (rps.foldl wiring_step
                      (init_sets b.input_config.total_input
                        (b.input_config.total_input + b.current_row * 3))).map
                      (List.insertionSort (· ≤ ·))
                  n_cells := b.input_config.total_input + b.current_row * 3
                  n_rows := b.current_row
                  output := output })) := rfl

lemma build_ok_elim {b : CircuitBuilder} {c : Circuit} (h : b.build = .ok c) :
    c.input_config = b.input_config ∧ c.selectors = b.ops ∧
    c.n_rows = b.current_row ∧
    c.n_cells = b.input_config.total_input + b.current_row * 3 ∧
    1 ≤ b.current_row ∧ c.output = b.current_row * 3 - 1 ∧
    ∃ rps, resolve_pairs c.n_cells b.wiring_pairs = .ok rps ∧
      c.copy_constraints =
        (rps.foldl wiring_step (init_sets b.input_config.total_input c.n_cells)).map
          (List.insertionSort (· ≤ ·)) := by
  rw [build_unfold] at h
  cases hrp : resolve_pairs (b.input_config.total_input + b.current_row * 3)
      b.wiring_pairs with
  | error e => rw [hrp, except_bind_error] at h; cases h
  | ok rps =>
      rw [hrp, except_bind_ok] at h
      unfold checked_sub at h
      split at h
      · rename_i hle
        rw [except_bind_ok] at h
        cases h
        exact ⟨rfl, rfl, rfl, rfl, by omega, rfl, rps, hrp, rfl⟩
      · rw [except_bind_error] at h
        cases h

lemma build_zero_rows {b : CircuitBuilder} (h : b.current_row = 0) :
    ∃ e, b.build = .error e := by
  rw [build_unfold]
  cases hrp : resolve_pairs (b.input_config.total_input + b.current_row * 3)
      b.wiring_pairs with
  | error e => exact ⟨e, by rw [except_bind_error]⟩
  | ok rps =>
      refine ⟨sub_overflow_msg, ?_⟩
      rw [except_bind_ok]
      unfold checked_sub
      rw [if_neg (by omega), except_bind_error]

lemma resolve_input_le {C i : Nat} (h : i ≤ C) :
    resolve_ref C (Cellref.Input i) = .ok (C - i) := by
  have hre : resolve_ref C (Cellref.Input i) = checked_sub C i := rfl
  rw [hre]
  unfold checked_sub
  rw [if_pos h]

lemma resolve_pairs_ok_of_le {C : Nat} {ps : List (Cellref × Cellref)}
    (h : input_refs_le C ps) : ∃ rps, resolve_pairs C ps = .ok rps := by
  induction ps with
  | nil => exact ⟨[], rfl⟩
  | cons p ps ih =>
      rcases ih (fun q hq => h q (List.mem_cons_of_mem _ hq)) with ⟨rps, hrps⟩
      have hp := h p (by simp)
      have hx : ∃ x, resolve_ref C p.1 = .ok x := by
        have hp1 := hp.1
        cases hc1 : p.1 with
        | Wire w => exact ⟨w, rfl⟩
        | Input i =>
            rw [hc1] at hp1
            exact ⟨C - i, resolve_input_le hp1⟩
      have hy : ∃ y, resolve_ref C p.2 = .ok y := by
        have hp2 := hp.2
        cases hc2 : p.2 with
        | Wire w => exact ⟨w, rfl⟩
        | Input i =>
            rw [hc2] at hp2
            exact ⟨C - i, resolve_input_le hp2⟩
      rcases hx with ⟨x, hx⟩
      rcases hy with ⟨y, hy⟩
      exact ⟨(x, y) :: rps,
        by rw [resolve_pairs_cons, hx, except_bind_ok, hy, except_bind_ok, hrps,
          except_bind_ok]⟩

lemma build_ok_of_rows_of_le {b : CircuitBuilder} (h1 : 1 ≤ b.current_row)
    (h2 : input_refs_le (b.input_config.total_input + b.current_row * 3) b.wiring_pairs) :
    ∃ c, b.build = .ok c ∧ c.output = b.current_row * 3 - 1 := by
  rcases resolve_pairs_ok_of_le h2 with ⟨rps, hrps⟩
  have hex : ∃ c, b.build = .ok c := by
    rw [build_unfold, hrps, except_bind_ok]
    unfold checked_sub
    rw [if_pos (by omega), except_bind_ok]
    exact ⟨_, rfl⟩
  rcases hex with ⟨c, hc⟩
  exact ⟨c, hc, (build_ok_elim hc).2.2.2.2.2.1⟩

lemma built_input_covered {b : CircuitBuilder} {c : Circuit} (h : b.build = .ok c)
    {k : Nat} (h1 : 1 ≤ k) (h2 : k ≤ c.n_inputs) :
    mem_sets (c.n_cells - k) c.copy_constraints := by
  rcases build_ok_elim h with ⟨hic, _, _, _, _, _, rps, _, hcc⟩
  rw [hcc, mem_sets_map_sort, foldl_wiring_step_mem]
  refine Or.inl ?_
  rw [init_sets_mem]
  refine ⟨k, h1, ?_, rfl⟩
  unfold Circuit.n_inputs at h2
  rw [hic] at h2
  exact h2

lemma get_copy_constraints_isSome {c : Circuit} {a : Nat}
    (h : mem_sets a c.copy_constraints) :
    ∃ s, c.get_copy_constraints a = some s := by
  unfold Circuit.get_copy_constraints
  rcases h with ⟨s, hs, ha⟩
  have : (c.copy_constraints.find? (fun v => decide (a ∈ v))).isSome := by
    rw [List.find?_isSome]
    exact ⟨s, hs, by simpa using ha⟩
  rcases Option.isSome_iff_exists.mp this with ⟨t, ht⟩
  exact ⟨t, ht⟩

/-! ## The wiring fold: disjointness for gate-recorded pairs -/

lemma not_mem_sets_elim {a : Nat} {sets : List (List Nat)} (h : ¬ mem_sets a sets) :
    ∀ s ∈ sets, a ∉ s :=
  fun s hs ha => h ⟨s, hs, ha⟩

lemma wiring_step_disjoint {sets : List (List Nat)} {p : Nat × Nat}
    (hd : sets_pairwise_disjoint sets) (hf : ¬ mem_sets p.2 sets) :
    sets_pairwise_disjoint (wiring_step sets p) := by
  unfold wiring_step
  cases h1 : insert_into_first p.1 p.2 sets with
  | some sets2 =>
      rcases insert_into_first_some h1 with ⟨pre, s, post, hsets, hx, hpre, hsets2⟩
      subst hsets2
      subst hsets
      have hf' : ∀ u ∈ pre ++ s :: post, p.2 ∉ u := not_mem_sets_elim hf
      unfold sets_pairwise_disjoint at hd ⊢
      rw [List.pairwise_append] at hd ⊢
      rcases hd with ⟨hd1, hd2, hd3⟩
      rw [List.pairwise_cons] at hd2 ⊢
      rcases hd2 with ⟨hd21, hd22⟩
      refine ⟨hd1, ⟨?_, hd22⟩, ?_⟩
      · intro t ht a ha
        rcases insert_elem_mem.mp ha with ha | rfl
        · exact hd21 t ht a ha
        · exact hf' t (List.mem_append.mpr (Or.inr (List.mem_cons_of_mem _ ht)))
      · intro u hu w hw a ha
        rcases List.mem_cons.mp hw with rfl | hw
        · intro haw
          rcases insert_elem_mem.mp haw with haw | rfl
          · exact hd3 u hu s (by simp) a ha haw
          · exact hf' u (List.mem_append.mpr (Or.inl hu)) ha
        · exact hd3 u hu w (List.mem_cons_of_mem _ hw) a ha
  | none =>
      cases h2 : insert_into_first p.2 p.1 sets with
      | some sets2 =>
          exact absurd (insert_into_first_some_mem h2).1 hf
      | none =>
          have hx1 : ∀ s ∈ sets, p.1 ∉ s := insert_into_first_none.mp h1
          have hx2 : ∀ s ∈ sets, p.2 ∉ s := not_mem_sets_elim hf
          unfold sets_pairwise_disjoint
          rw [List.pairwise_append]
          refine ⟨hd, by simp, ?_⟩
          intro u hu w hw a ha haw
          rcases List.mem_singleton.mp hw with rfl
          have : a = p.1 ∨ a = p.2 := by
            by_cases hpp : p.1 = p.2
            · rw [if_pos hpp] at haw
              rcases List.mem_singleton.mp haw with rfl
              exact Or.inl rfl
            · rw [if_neg hpp] at haw
              simpa using haw
          rcases this with rfl | rfl
          · exact hx1 u hu ha
          · exact hx2 u hu ha

lemma foldl_wiring_step_disjoint :
    ∀ {ps : List (Nat × Nat)} {init : List (List Nat)},
      sets_pairwise_disjoint init →
      (∀ p ∈ ps, ¬ mem_sets p.2 init) →
      List.Pairwise (fun p q => q.2 ≠ p.1 ∧ q.2 ≠ p.2) ps →
      sets_pairwise_disjoint (ps.foldl wiring_step init) := by
  intro ps
  induction ps with
  | nil => intro init hd _ _; exact hd
  | cons p ps ih =>
      intro init hd hfresh hpw
      rw [List.foldl_cons]
      rcases List.pairwise_cons.mp hpw with ⟨hhead, htail⟩
      refine ih (wiring_step_disjoint hd (hfresh p (by simp))) ?_ htail
      intro q hq hmem
      rw [wiring_step_mem q.2] at hmem
      rcases hmem with hmem | h | h
      · exact hfresh q (List.mem_cons_of_mem _ hq) hmem
      · exact (hhead q hq).1 h
      · exact (hhead q hq).2 h

lemma disjoint_map_sort {sets : List (List Nat)} (h : sets_pairwise_disjoint sets) :
    sets_pairwise_disjoint (sets.map (List.insertionSort (· ≤ ·))) := by
  unfold sets_pairwise_disjoint at h ⊢
  rw [List.pairwise_map]
  refine h.imp ?_
  intro s t hst a ha
  rw [(List.perm_insertionSort _ s).mem_iff] at ha
  rw [(List.perm_insertionSort _ t).mem_iff]
  exact hst a ha

lemma init_sets_disjoint (n_input n_cells : Nat) (h : n_input ≤ n_cells) :
    sets_pairwise_disjoint (init_sets n_input n_cells) := by
  unfold init_sets sets_pairwise_disjoint
  rw [List.pairwise_map]
  have hlt : List.Pairwise (· < ·) (List.range' 1 n_input) := List.pairwise_lt_range' _ _
  refine List.Pairwise.imp_of_mem ?_ hlt
  intro k k' hk hk' hkk a ha
  rcases List.mem_range'_1.mp hk with ⟨hk1, hk2⟩
  rcases List.mem_range'_1.mp hk' with ⟨hk1', hk2'⟩
  rcases List.mem_singleton.mp ha with rfl
  intro hmem
  rcases List.mem_singleton.mp hmem with heq
  omega

lemma resolve_pairs_append {C : Nat} {ps qs : List (Cellref × Cellref)}
    {rps rqs : List (Nat × Nat)} (h1 : resolve_pairs C ps = .ok rps)
    (h2 : resolve_pairs C qs = .ok rqs) :
    resolve_pairs C (ps ++ qs) = .ok (rps ++ rqs) := by
  induction ps generalizing rps with
  | nil =>
      cases h1
      simpa using h2
  | cons p ps ih =>
      rw [resolve_pairs_cons] at h1
      cases hx : resolve_ref C p.1 with
      | error e => rw [hx, except_bind_error] at h1; cases h1
      | ok x =>
          rw [hx, except_bind_ok] at h1
          cases hy : resolve_ref C p.2 with
          | error e => rw [hy, except_bind_error] at h1; cases h1
          | ok y =>
              rw [hy, except_bind_ok] at h1
              cases hr : resolve_pairs C ps with
              | error e => rw [hr, except_bind_error] at h1; cases h1
              | ok rest =>
                  rw [hr, except_bind_ok] at h1
                  cases h1
                  rw [List.cons_append, resolve_pairs_cons, hx, except_bind_ok, hy,
                    except_bind_ok, ih hr, except_bind_ok]
                  rfl

lemma gate_shaped_resolve {nin : Nat} :
    ∀ {r : Nat} {ps : List (Cellref × Cellref)}, GateShaped nin r ps →
      ∀ {C : Nat}, nin + r * 3 ≤ C →
        ∃ rps, resolve_pairs C ps = .ok rps ∧
          (∀ p ∈ rps, p.2 < r * 3) ∧
          (∀ p ∈ rps, p.2 % 3 ≠ 2) ∧
          (∀ p ∈ rps, p.1 + 4 ≤ r * 3 ∨ C - nin ≤ p.1) ∧
          List.Pairwise (fun p q : Nat × Nat => q.2 ≠ p.1 ∧ q.2 ≠ p.2) rps := by
  intro r ps hg
  induction hg with
  | nil =>
      intro C _
      exact ⟨[], rfl, by simp, by simp, by simp, by simp⟩
  | @cons r ps l rr hg hvl hvr ih =>
      intro C hC
      have hC' : nin + r * 3 ≤ C := by omega
      have hCn : nin ≤ C := by omega
      rcases ih hC' with ⟨rps, hrps, hq1, hq4, hq2, hq3⟩
      have hresl : ∃ x, resolve_ref C l = .ok x ∧ (x < r * 3 ∨ C - nin ≤ x) := by
        cases l with
        | Wire w => exact ⟨w, rfl, Or.inl hvl⟩
        | Input i =>
            rcases hvl with ⟨hi1, hi2⟩
            exact ⟨C - i, resolve_input_le (by omega), Or.inr (by omega)⟩
      have hresr : ∃ x, resolve_ref C rr = .ok x ∧ (x < r * 3 ∨ C - nin ≤ x) := by
        cases rr with
        | Wire w => exact ⟨w, rfl, Or.inl hvr⟩
        | Input i =>
            rcases hvr with ⟨hi1, hi2⟩
            exact ⟨C - i, resolve_input_le (by omega), Or.inr (by omega)⟩
      rcases hresl with ⟨xl, hxl, hbl⟩
      rcases hresr with ⟨xr, hxr, hbr⟩
      have hnew : resolve_pairs C [(l, Cellref.Wire (r * 3)), (rr, Cellref.Wire (r * 3 + 1))] =
          .ok [(xl, r * 3), (xr, r * 3 + 1)] := by
        rw [resolve_pairs_cons, hxl, except_bind_ok]
        have : resolve_ref C (Cellref.Wire (r * 3)) = .ok (r * 3) := rfl
        rw [this, except_bind_ok, resolve_pairs_cons, hxr, except_bind_ok]
        have : resolve_ref C (Cellref.Wire (r * 3 + 1)) = .ok (r * 3 + 1) := rfl
        rw [this, except_bind_ok]
        rfl
      refine ⟨rps ++ [(xl, r * 3), (xr, r * 3 + 1)], resolve_pairs_append hrps hnew,
        ?_, ?_, ?_, ?_⟩
      · intro p hp
        rcases List.mem_append.mp hp with hp | hp
        · have := hq1 p hp
          omega
        · rcases List.mem_cons.mp hp with rfl | hp
          · simp only []
            omega
          · rcases List.mem_singleton.mp hp with rfl
            simp only []
            omega
      · intro p hp
        rcases List.mem_append.mp hp with hp | hp
        · exact hq4 p hp
        · rcases List.mem_cons.mp hp with rfl | hp
          · simp only []
            omega
          · rcases List.mem_singleton.mp hp with rfl
            simp only []
            omega
      · intro p hp
        rcases List.mem_append.mp hp with hp | hp
        · rcases hq2 p hp with h | h
          · left; omega
          · right; exact h
        · rcases List.mem_cons.mp hp with rfl | hp
          · rcases hbl with h | h
            · left; simp only []; omega
            · right; simpa using h
          · rcases List.mem_singleton.mp hp with rfl
            rcases hbr with h | h
            · left; simp only []; omega
            · right; simpa using h
      · rw [List.pairwise_append]
        refine ⟨hq3, ?_, ?_⟩
        · rw [List.pairwise_cons]
          refine ⟨?_, by simp⟩
          intro q hq
          rcases List.mem_singleton.mp hq with rfl
          constructor
          · simp only []
            rcases hbl with h | h
            · omega
            · omega
          · simp only []
            omega
        · intro p hp q hq
          have hp2 : p.2 < r * 3 := hq1 p hp
          have hp1 : p.1 + 4 ≤ r * 3 ∨ C - nin ≤ p.1 := hq2 p hp
          have hq2' : q.2 = r * 3 ∨ q.2 = r * 3 + 1 := by
            rcases List.mem_cons.mp hq with rfl | hq
            · left; rfl
            · rcases List.mem_singleton.mp hq with rfl
              right; rfl
          constructor
          · rcases hq2' with h | h <;> rcases hp1 with h' | h' <;> omega
          · rcases hq2' with h | h <;> omega

/-! ## Builder calls: validation and state shape -/

lemma validate_input_eq (b : CircuitBuilder) (x : Nat) :
    b.validate_cell_ref (.Input x) =
      if x = 0 ∨ b.input_config.total_input < x then
        .error ("Input " ++ toString x ++ " does not exist.")
      else
        .ok () := rfl

lemma validate_wire_eq (b : CircuitBuilder) (x : Nat) :
    b.validate_cell_ref (.Wire x) =
      if b.current_row * 3 ≤ x then
        .error ("Wire " ++ toString x ++ " does not exist.")
      else
        .ok () := rfl

lemma validate_ok_iff (b : CircuitBuilder) (cell : Cellref) :
    b.validate_cell_ref cell = .ok () ↔
      valid_ref b.input_config.total_input b.current_row cell := by
  cases cell with
  | Input x =>
      rw [validate_input_eq]
      unfold valid_ref
      split
      · constructor
        · intro h; cases h
        · intro h; omega
      · constructor
        · intro _; omega
        · intro _; rfl
  | Wire x =>
      rw [validate_wire_eq]
      unfold valid_ref
      split
      · constructor
        · intro h; cases h
        · intro h; omega
      · constructor
        · intro _; omega
        · intro _; rfl

lemma add_addition_unfold (b : CircuitBuilder) (lhs rhs : Cellref) :
    b.add_addition lhs rhs =
      Except.bind ((b.validate_cell_ref lhs).mapError (fun e => "LHS: " ++ e)) (fun _ =>
        Except.bind ((b.validate_cell_ref rhs).mapError (fun e => "RHS: " ++ e)) (fun _ =>
          .ok (.Wire (b.current_row * 3 + 2),
            { current_row := b.current_row + 1
              ops := b.ops ++ [Op.Add]
              wiring_pairs := b.wiring_pairs ++ [(lhs, .Wire (b.current_row * 3))] ++
                [(rhs, .Wire (b.current_row * 3 + 1))]
              input_config := b.input_config }))) := rfl

lemma add_multiplication_unfold (b : CircuitBuilder) (lhs rhs : Cellref) :
    b.add_multiplication lhs rhs =
      Except.bind ((b.validate_cell_ref lhs).mapError (fun e => "LHS: " ++ e)) (fun _ =>
        Except.bind ((b.validate_cell_ref rhs).mapError (fun e => "RHS: " ++ e)) (fun _ =>
          .ok (.Wire (b.current_row * 3 + 2),
            { current_row := b.current_row + 1
              ops := b.ops ++ [Op.Mul]
              wiring_pairs := b.wiring_pairs ++ [(lhs, .Wire (b.current_row * 3))] ++
                [(rhs, .Wire (b.current_row * 3 + 1))]
              input_config := b.input_config }))) := rfl

lemma mapError_error_eq {α : Type} (f : String → String) (e : String) :
    (Except.error e : Except String α).mapError f = .error (f e) := rfl

lemma mapError_ok_eq {α : Type} (f : String → String) (a : α) :
    (Except.ok a : Except String α).mapError f = .ok a := rfl

lemma add_addition_error_lhs {b : CircuitBuilder} {lhs : Cellref} (rhs : Cellref)
    {e : String} (h : b.validate_cell_ref lhs = .error e) :
    b.add_addition lhs rhs = .error ("LHS: " ++ e) := by
  rw [add_addition_unfold, h, mapError_error_eq, except_bind_error]

lemma add_addition_error_rhs {b : CircuitBuilder} {lhs rhs : Cellref} {e : String}
    (h1 : b.validate_cell_ref lhs = .ok ()) (h2 : b.validate_cell_ref rhs = .error e) :
    b.add_addition lhs rhs = .error ("RHS: " ++ e) := by
  rw [add_addition_unfold, h1, mapError_ok_eq, except_bind_ok, h2, mapError_error_eq,
    except_bind_error]

lemma add_multiplication_error_lhs {b : CircuitBuilder} {lhs : Cellref} (rhs : Cellref)
    {e : String} (h : b.validate_cell_ref lhs = .error e) :
    b.add_multiplication lhs rhs = .error ("LHS: " ++ e) := by
  rw [add_multiplication_unfold, h, mapError_error_eq, except_bind_error]

lemma add_multiplication_error_rhs {b : CircuitBuilder} {lhs rhs : Cellref} {e : String}
    (h1 : b.validate_cell_ref lhs = .ok ()) (h2 : b.validate_cell_ref rhs = .error e) :
    b.add_multiplication lhs rhs = .error ("RHS: " ++ e) := by
  rw [add_multiplication_unfold, h1, mapError_ok_eq, except_bind_ok, h2, mapError_error_eq,
    except_bind_error]

lemma add_addition_ok_elim {b : CircuitBuilder} {lhs rhs cref : Cellref}
    {b' : CircuitBuilder} (h : b.add_addition lhs rhs = .ok (cref, b')) :
    b.validate_cell_ref lhs = .ok () ∧ b.validate_cell_ref rhs = .ok () ∧
    cref = .Wire (b.current_row * 3 + 2) ∧
    b' = { current_row := b.current_row + 1
           ops := b.ops ++ [Op.Add]
           wiring_pairs := b.wiring_pairs ++ [(lhs, .Wire (b.current_row * 3))] ++
             [(rhs, .Wire (b.current_row * 3 + 1))]
           input_config := b.input_config } := by
  rw [add_addition_unfold] at h
  cases hv1 : b.validate_cell_ref lhs with
  | error e => rw [hv1, mapError_error_eq, except_bind_error] at h; cases h
  | ok u =>
      cases u
      rw [hv1, mapError_ok_eq, except_bind_ok] at h
      cases hv2 : b.validate_cell_ref rhs with
      | error e => rw [hv2, mapError_error_eq, except_bind_error] at h; cases h
      | ok u =>
          cases u
          rw [hv2, mapError_ok_eq, except_bind_ok] at h
          cases h
          exact ⟨rfl, rfl, rfl, rfl⟩

lemma add_multiplication_ok_elim {b : CircuitBuilder} {lhs rhs cref : Cellref}
    {b' : CircuitBuilder} (h : b.add_multiplication lhs rhs = .ok (cref, b')) :
    b.validate_cell_ref lhs = .ok () ∧ b.validate_cell_ref rhs = .ok () ∧
    cref = .Wire (b.current_row * 3 + 2) ∧
    b' = { current_row := b.current_row + 1
           ops := b.ops ++ [Op.Mul]
           wiring_pairs := b.wiring_pairs ++ [(lhs, .Wire (b.current_row * 3))] ++
             [(rhs, .Wire (b.current_row * 3 + 1))]
           input_config := b.input_config } := by
  rw [add_multiplication_unfold] at h
  cases hv1 : b.validate_cell_ref lhs with
  | error e => rw [hv1, mapError_error_eq, except_bind_error] at h; cases h
  | ok u =>
      cases u
      rw [hv1, mapError_ok_eq, except_bind_ok] at h
      cases hv2 : b.validate_cell_ref rhs with
      | error e => rw [hv2, mapError_error_eq, except_bind_error] at h; cases h
      | ok u =>
          cases u
          rw [hv2, mapError_ok_eq, except_bind_ok] at h
          cases h
          exact ⟨rfl, rfl, rfl, rfl⟩

lemma runCmd_shape {b : CircuitBuilder} {cmd : BuilderCmd} {b' : CircuitBuilder}
    (h : runCmd b cmd = .ok b') :
    b'.input_config = b.input_config ∧
    (b.ops.length = b.current_row → b'.ops.length = b'.current_row) := by
  cases cmd with
  | addWireConstraint l r =>
      cases h
      exact ⟨rfl, fun hl => hl⟩
  | addAddition l r =>
      cases ha : b.add_addition l r with
      | error e => simp only [runCmd, ha] at h; cases h
      | ok p =>
          cases p with
          | mk cref b2 =>
              simp only [runCmd, ha] at h
              cases h
              rcases add_addition_ok_elim ha with ⟨_, _, _, rfl⟩
              refine ⟨rfl, fun hl => ?_⟩
              simp [hl]
  | addMultiplication l r =>
      cases ha : b.add_multiplication l r with
      | error e => simp only [runCmd, ha] at h; cases h
      | ok p =>
          cases p with
          | mk cref b2 =>
              simp only [runCmd, ha] at h
              cases h
              rcases add_multiplication_ok_elim ha with ⟨_, _, _, rfl⟩
              refine ⟨rfl, fun hl => ?_⟩
              simp [hl]

lemma runCmds_shape_aux {cmds : List BuilderCmd} :
    ∀ {b0 b : CircuitBuilder}, runCmds b0 cmds = .ok b →
      b.input_config = b0.input_config ∧
      (b0.ops.length = b0.current_row → b.ops.length = b.current_row) := by
  induction cmds with
  | nil =>
      intro b0 b h
      cases h
      exact ⟨rfl, fun hl => hl⟩
  | cons c cs ih =>
      intro b0 b h
      unfold runCmds at h
      cases hc : runCmd b0 c with
      | error e => rw [hc] at h; cases h
      | ok b1 =>
          simp only [hc] at h
          rcases runCmd_shape hc with ⟨hic1, hlen1⟩
          rcases ih h with ⟨hic2, hlen2⟩
          exact ⟨by rw [hic2, hic1], fun hl => hlen2 (hlen1 hl)⟩

lemma runCmds_shape {cfg : InputConfig} {cmds : List BuilderCmd} {b : CircuitBuilder}
    (h : runCmds (CircuitBuilder.new cfg) cmds = .ok b) :
    b.input_config = cfg ∧ b.ops.length = b.current_row := by
  rcases runCmds_shape_aux h with ⟨hic, hlen⟩
  exact ⟨hic, hlen rfl⟩

lemma runCmds_gate_shaped_aux {cmds : List BuilderCmd} (hwf : ∀ c ∈ cmds, c.isWire = false) :
    ∀ {b0 b : CircuitBuilder}, runCmds b0 cmds = .ok b →
      GateShaped b0.input_config.total_input b0.current_row b0.wiring_pairs →
      GateShaped b.input_config.total_input b.current_row b.wiring_pairs := by
  induction cmds with
  | nil =>
      intro b0 b h hg
      cases h
      exact hg
  | cons c cs ih =>
      intro b0 b h hg
      unfold runCmds at h
      cases hc : runCmd b0 c with
      | error e => rw [hc] at h; cases h
      | ok b1 =>
          simp only [hc] at h
          refine ih (fun d hd => hwf d (List.mem_cons_of_mem _ hd)) h ?_
          cases c with
          | addWireConstraint l r =>
              exact absurd (hwf (BuilderCmd.addWireConstraint l r) (by simp))
                (by simp [BuilderCmd.isWire])
          | addAddition l r =>
              cases ha : b0.add_addition l r with
              | error e => simp only [runCmd, ha] at hc; cases hc
              | ok p =>
                  cases p with
                  | mk cref b2 =>
                      simp only [runCmd, ha] at hc
                      cases hc
                      rcases add_addition_ok_elim ha with ⟨hv1, hv2, _, rfl⟩
                      have happ : b0.wiring_pairs ++ [(l, .Wire (b0.current_row * 3))] ++
                          [(r, .Wire (b0.current_row * 3 + 1))] =
                          b0.wiring_pairs ++ [(l, .Wire (b0.current_row * 3)),
                            (r, .Wire (b0.current_row * 3 + 1))] := by simp
                      show GateShaped b0.input_config.total_input (b0.current_row + 1) _
                      rw [happ]
                      exact GateShaped.cons hg ((validate_ok_iff b0 l).mp hv1)
                        ((validate_ok_iff b0 r).mp hv2)
          | addMultiplication l r =>
              cases ha : b0.add_multiplication l r with
              | error e => simp only [runCmd, ha] at hc; cases hc
              | ok p =>
                  cases p with
                  | mk cref b2 =>
                      simp only [runCmd, ha] at hc
                      cases hc
                      rcases add_multiplication_ok_elim ha with ⟨hv1, hv2, _, rfl⟩
                      have happ : b0.wiring_pairs ++ [(l, .Wire (b0.current_row * 3))] ++
                          [(r, .Wire (b0.current_row * 3 + 1))] =
                          b0.wiring_pairs ++ [(l, .Wire (b0.current_row * 3)),
                            (r, .Wire (b0.current_row * 3 + 1))] := by simp
                      show GateShaped b0.input_config.total_input (b0.current_row + 1) _
                      rw [happ]
                      exact GateShaped.cons hg ((validate_ok_iff b0 l).mp hv1)
                        ((validate_ok_iff b0 r).mp hv2)

lemma runCmds_gate_shaped {cfg : InputConfig} {cmds : List BuilderCmd}
    {b : CircuitBuilder} (h : runCmds (CircuitBuilder.new cfg) cmds = .ok b)
    (hwf : ∀ c ∈ cmds, c.isWire = false) :
    GateShaped b.input_config.total_input b.current_row b.wiring_pairs :=
  runCmds_gate_shaped_aux hwf h GateShaped.nil

/-! ## Witness-engine invariants -/

section Engine

variable {F : Type}

lemma write_cell_ok_elim {t : List (Option F)} {i : Nat} {v : F} {t' : List (Option F)}
    (h : write_cell t i v = .ok t') : t' = t.set i (some v) ∧ i < t.length := by
  unfold write_cell at h
  split at h
  · cases h
    exact ⟨rfl, by assumption⟩
  · cases h

lemma write_cell_error_elim {t : List (Option F)} {i : Nat} {v : F} {m : String}
    (h : write_cell t i v = .error m) : m = oob_write_msg := by
  unfold write_cell at h
  split at h
  · cases h
  · cases h
    rfl

lemma isSome_getD_lt {t : List (Option F)} {j : Nat}
    (h : (t.getD j none).isSome = true) : j < t.length := by
  by_contra hj
  rw [List.getD_eq_getElem?_getD, List.getElem?_eq_none (by omega)] at h
  simp at h

lemma getD_set_isSome_mono {t : List (Option F)} {i j : Nat} {v : F}
    (h : (t.getD j none).isSome = true) :
    ((t.set i (some v)).getD j none).isSome = true := by
  have hj : j < t.length := isSome_getD_lt h
  by_cases hij : i = j
  · subst hij
    rw [List.getD_eq_getElem?_getD, List.getElem?_set_eq_of_lt _ hj]
    rfl
  · rw [List.getD_eq_getElem?_getD, List.getElem?_set_ne hij,
      ← List.getD_eq_getElem?_getD]
    exact h

lemma queue_ok_mono {circ : Circuit} {t t' : List (Option F)} {q : List Nat}
    (hm : ∀ j, (t.getD j none).isSome = true → (t'.getD j none).isSome = true)
    (h : queue_ok circ t q) : queue_ok circ t' q := by
  intro id hid
  rcases h id hid with ⟨h1, h2, h3, h4⟩
  exact ⟨h1, h2, hm _ h3, hm _ h4⟩

lemma queue_ok_append {circ : Circuit} {t : List (Option F)} {q1 q2 : List Nat}
    (h1 : queue_ok circ t q1) (h2 : queue_ok circ t q2) : queue_ok circ t (q1 ++ q2) := by
  intro id hid
  rcases List.mem_append.mp hid with h | h
  · exact h1 id h
  · exact h2 id h

lemma queue_ok_of_cons {circ : Circuit} {t : List (Option F)} {id : Nat} {q : List Nat}
    (h : queue_ok circ t (id :: q)) : queue_ok circ t q :=
  fun i hi => h i (List.mem_cons_of_mem _ hi)

lemma propagate_set_cons_ok {circ : Circuit} [CommRing F] {v : F} {cell_id : Nat}
    {srest : List Nat} {t0 t1 : List (Option F)} {q0 : List Nat}
    (hw : write_cell t0 cell_id v = .ok t1) :
    propagate_set circ v (cell_id :: srest) t0 q0 =
      if cell_id / 3 < circ.n_rows then
        if ((t1.getD (cell_id / 3 * 3) none).isSome &&
            (t1.getD (cell_id / 3 * 3 + 1) none).isSome &&
            (t1.getD (cell_id / 3 * 3 + 2) none).isNone) = true then
          propagate_set circ v srest t1 (q0 ++ [cell_id / 3 * 3 + 2])
        else
          propagate_set circ v srest t1 q0
      else
        propagate_set circ v srest t1 q0 := by
  simp only [propagate_set, hw]

lemma propagate_set_cons_error {circ : Circuit} [CommRing F] {v : F} {cell_id : Nat}
    {srest : List Nat} {t0 : List (Option F)} {q0 : List Nat} {e : String}
    (hw : write_cell t0 cell_id v = .error e) :
    propagate_set circ v (cell_id :: srest) t0 q0 = .error e := by
  simp only [propagate_set, hw]

lemma propagate_set_ok_length {circ : Circuit} [CommRing F] {v : F} {s : List Nat}
    {t0 t : List (Option F)} {q0 q : List Nat}
    (h : propagate_set circ v s t0 q0 = .ok (t, q)) : t.length = t0.length := by
  induction s generalizing t0 q0 with
  | nil =>
      unfold propagate_set at h
      cases h
      rfl
  | cons cell_id srest ih =>
      cases hw : write_cell t0 cell_id v with
      | error e =>
          rw [propagate_set_cons_error hw] at h
          cases h
      | ok t1 =>
          rcases write_cell_ok_elim hw with ⟨ht1, hlt⟩
          have hlen1 : t1.length = t0.length := by rw [ht1]; exact List.length_set _ _ _
          rw [propagate_set_cons_ok hw] at h
          split at h
          · split at h
            · rw [ih h, hlen1]
            · rw [ih h, hlen1]
          · rw [ih h, hlen1]

lemma propagate_set_spec (circ : Circuit) [CommRing F] (v : F) (s : List Nat) :
    ∀ t0 q0, propagate_set circ v s t0 q0 = .error oob_write_msg ∨
      ∃ t q, propagate_set circ v s t0 q0 = .ok (t, q) ∧
        (∀ j, (t0.getD j none).isSome = true → (t.getD j none).isSome = true) ∧
        (queue_ok circ t0 q0 → queue_ok circ t q) := by
  induction s with
  | nil =>
      intro t0 q0
      right
      exact ⟨t0, q0, rfl, fun _ h => h, fun h => h⟩
  | cons cell_id srest ih =>
      intro t0 q0
      cases hw : write_cell t0 cell_id v with
      | error e =>
          left
          rw [write_cell_error_elim hw] at hw
          exact propagate_set_cons_error hw
      | ok t1 =>
          rcases write_cell_ok_elim hw with ⟨ht1, hlt⟩
          have hmono1 : ∀ j, (t0.getD j none).isSome = true →
              (t1.getD j none).isSome = true := by
            intro j hj
            rw [ht1]
            exact getD_set_isSome_mono hj
          rw [propagate_set_cons_ok hw]
          by_cases hrow : cell_id / 3 < circ.n_rows
          · rw [if_pos hrow]
            by_cases hcond : ((t1.getD (cell_id / 3 * 3) none).isSome &&
                (t1.getD (cell_id / 3 * 3 + 1) none).isSome &&
                (t1.getD (cell_id / 3 * 3 + 2) none).isNone) = true
            · rw [if_pos hcond]
              rcases ih t1 (q0 ++ [cell_id / 3 * 3 + 2]) with herr | ⟨t, q, hok, hmono, hqok⟩
              · left
                exact herr
              · right
                refine ⟨t, q, hok, fun j hj => hmono j (hmono1 j hj), ?_⟩
                intro hq0
                refine hqok (queue_ok_append (queue_ok_mono hmono1 hq0) ?_)
                intro id hid
                rcases List.mem_singleton.mp hid with rfl
                simp only [Bool.and_eq_true] at hcond
                have hdiv : (cell_id / 3 * 3 + 2) / 3 = cell_id / 3 := by omega
                refine ⟨by omega, by rw [hdiv]; exact hrow, ?_, ?_⟩
                · have h2 : cell_id / 3 * 3 + 2 - 2 = cell_id / 3 * 3 := by omega
                  rw [h2]
                  exact hcond.1.1
                · have h1 : cell_id / 3 * 3 + 2 - 1 = cell_id / 3 * 3 + 1 := by omega
                  rw [h1]
                  exact hcond.1.2
            · rw [if_neg hcond]
              rcases ih t1 q0 with herr | ⟨t, q, hok, hmono, hqok⟩
              · left
                exact herr
              · right
                exact ⟨t, q, hok, fun j hj => hmono j (hmono1 j hj),
                  fun hq0 => hqok (queue_ok_mono hmono1 hq0)⟩
          · rw [if_neg hrow]
            rcases ih t1 q0 with herr | ⟨t, q, hok, hmono, hqok⟩
            · left
              exact herr
            · right
              exact ⟨t, q, hok, fun j hj => hmono j (hmono1 j hj),
                fun hq0 => hqok (queue_ok_mono hmono1 hq0)⟩

lemma get_input_val_isSome (total : Nat) {pub priv : List F} {i : Nat}
    (h : pub.length + priv.length = total) (hi : i < total) :
    (get_input_val pub priv i).isSome = true := by
  unfold get_input_val
  split
  · rw [List.getElem?_eq_getElem (by assumption)]
    rfl
  · rw [List.getElem?_eq_getElem (by omega)]
    rfl

lemma input_phase_go_ok_length {circ : Circuit} [CommRing F] {pub priv : List F}
    {is : List Nat} :
    ∀ {st : List (Option F) × List Nat} {t : List (Option F)} {q : List Nat},
      input_phase_go circ pub priv is st = .ok (t, q) → t.length = st.1.length := by
  induction is with
  | nil =>
      intro st t q h
      unfold input_phase_go at h
      cases h
      rfl
  | cons i is ih =>
      intro st t q h
      unfold input_phase_go at h
      cases hv : get_input_val pub priv i with
      | none => simp only [hv] at h; cases h
      | some v =>
          simp only [hv] at h
          cases hw : write_cell st.1 (circ.n_cells - (i + 1)) v with
          | error e => simp only [hw] at h; cases h
          | ok t1 =>
              simp only [hw] at h
              cases hcc : circ.get_copy_constraints (circ.n_cells - (i + 1)) with
              | none => simp only [hcc] at h; cases h
              | some s =>
                  simp only [hcc] at h
                  cases hp : propagate_set circ v s t1 st.2 with
                  | error e => simp only [hp] at h; cases h
                  | ok st' =>
                      cases st' with
                      | mk t2 q2 =>
                          simp only [hp] at h
                          rcases write_cell_ok_elim hw with ⟨ht1, _⟩
                          have h1 : t2.length = t1.length := propagate_set_ok_length hp
                          rw [ih h, h1, ht1, List.length_set]

lemma input_phase_go_spec (circ : Circuit) [CommRing F] (pub priv : List F)
    (is : List Nat) :
    ∀ st : List (Option F) × List Nat,
      (∀ i ∈ is, (get_input_val pub priv i).isSome = true) →
      (∀ i ∈ is, mem_sets (circ.n_cells - (i + 1)) circ.copy_constraints) →
      input_phase_go circ pub priv is st = .error oob_write_msg ∨
      ∃ t q, input_phase_go circ pub priv is st = .ok (t, q) ∧
        (queue_ok circ st.1 st.2 → queue_ok circ t q) := by
  induction is with
  | nil =>
      intro st _ _
      right
      exact ⟨st.1, st.2, rfl, fun h => h⟩
  | cons i is ih =>
      intro st hval hcov
      have hv : ∃ v, get_input_val pub priv i = some v :=
        Option.isSome_iff_exists.mp (hval i (by simp))
      rcases hv with ⟨v, hv⟩
      cases hw : write_cell st.1 (circ.n_cells - (i + 1)) v with
      | error e =>
          left
          rw [write_cell_error_elim hw] at hw
          simp only [input_phase_go, hv, hw]
      | ok t1 =>
          rcases write_cell_ok_elim hw with ⟨ht1, hlt⟩
          have hmono1 : ∀ j, (st.1.getD j none).isSome = true →
              (t1.getD j none).isSome = true := by
            intro j hj
            rw [ht1]
            exact getD_set_isSome_mono hj
          rcases get_copy_constraints_isSome (hcov i (by simp)) with ⟨s, hcc⟩
          rcases propagate_set_spec circ v s t1 st.2 with herr | ⟨t2, q2, hp, hmono2, hqok2⟩
          · left
            simp only [input_phase_go, hv, hw, hcc, herr]
          · have hred : input_phase_go circ pub priv (i :: is) st =
                input_phase_go circ pub priv is (t2, q2) := by
              simp only [input_phase_go, hv, hw, hcc, hp]
            rcases ih (t2, q2) (fun j hj => hval j (List.mem_cons_of_mem _ hj))
                (fun j hj => hcov j (List.mem_cons_of_mem _ hj)) with
              herr | ⟨t, q, hok, hqok⟩
          -- compose
            · left
              rw [hred, herr]
            · right
              refine ⟨t, q, by rw [hred, hok], ?_⟩
              intro hq0
              exact hqok (hqok2 (queue_ok_mono hmono1 hq0))

lemma input_phase_spec (circ : Circuit) [CommRing F] (pub priv : List F)
    (hval : ∀ i < circ.n_inputs, (get_input_val pub priv i).isSome = true)
    (hcov : ∀ i < circ.n_inputs, mem_sets (circ.n_cells - (i + 1)) circ.copy_constraints) :
    input_phase circ pub priv = .error oob_write_msg ∨
    ∃ t q, input_phase circ pub priv = .ok (t, q) ∧ t.length = circ.n_cells ∧
      queue_ok circ t q := by
  rcases input_phase_go_spec circ pub priv (List.range circ.n_inputs)
      (List.replicate circ.n_cells (none : Option F), ([] : List Nat))
      (fun i hi => hval i (List.mem_range.mp hi))
      (fun i hi => hcov i (List.mem_range.mp hi)) with herr | ⟨t, q, hok, hqok⟩
  · left
    exact herr
  · right
    refine ⟨t, q, hok, ?_, hqok (by intro id hid; cases hid)⟩
    have := input_phase_go_ok_length hok
    simpa using this

lemma drain_ok_length {circ : Circuit} [CommRing F] :
    ∀ {fuel : Nat} {t : List (Option F)} {q : List Nat} {t' : List (Option F)},
      drain circ fuel t q = .ok t' → t'.length = t.length := by
  intro fuel
  induction fuel with
  | zero => intro t q t' h; cases h
  | succ fuel ih =>
      intro t q t' h
      cases q with
      | nil =>
          unfold drain at h
          cases h
          rfl
      | cons id rest =>
          unfold drain at h
          cases h2 : t.getD (id - 2) none with
          | none => simp only [h2] at h; cases h
          | some lhs =>
              simp only [h2] at h
              cases h1 : t.getD (id - 1) none with
              | none => simp only [h1] at h; cases h
              | some rhs =>
                  simp only [h1] at h
                  cases hsel : circ.get_selector (id / 3) with
                  | none => simp only [hsel] at h; cases h
                  | some op =>
                      simp only [hsel] at h
                      cases hw : write_cell t id (op.apply lhs rhs) with
                      | error e => simp only [hw] at h; cases h
                      | ok t1 =>
                          simp only [hw] at h
                          rcases write_cell_ok_elim hw with ⟨ht1, _⟩
                          have hlen1 : t1.length = t.length := by
                            rw [ht1]; exact List.length_set _ _ _
                          split at h
                          · rw [ih h, hlen1]
                          · cases hcc : circ.get_copy_constraints id with
                            | none => simp only [hcc] at h; cases h
                            | some s =>
                                simp only [hcc] at h
                                cases hp : propagate_set circ (op.apply lhs rhs) s t1 rest with
                                | error e => simp only [hp] at h; cases h
                                | ok st' =>
                                    cases st' with
                                    | mk t2 q2 =>
                                        simp only [hp] at h
                                        rw [ih h, propagate_set_ok_length hp, hlen1]

lemma drain_spec (circ : Circuit) [CommRing F]
    (hsel : circ.selectors.length = circ.n_rows) :
    ∀ (fuel : Nat) (t : List (Option F)) (q : List Nat), queue_ok circ t q →
      (∃ t', drain circ fuel t q = .ok t') ∨
      drain circ fuel t q = .error copy_lookup_msg ∨
      drain circ fuel t q = .error oob_write_msg ∨
      drain circ fuel t q = .error fuel_msg := by
  intro fuel
  induction fuel with
  | zero =>
      intro t q _
      right; right; right
      rfl
  | succ fuel ih =>
      intro t q hq
      cases q with
      | nil =>
          left
          exact ⟨t, rfl⟩
      | cons id rest =>
          rcases hq id (by simp) with ⟨hmod, hrow, hs2, hs1⟩
          rcases Option.isSome_iff_exists.mp hs2 with ⟨lhs, h2⟩
          rcases Option.isSome_iff_exists.mp hs1 with ⟨rhs, h1⟩
          have hselsome : ∃ op, circ.get_selector (id / 3) = some op := by
            unfold Circuit.get_selector
            rw [List.getElem?_eq_getElem (by rw [hsel]; exact hrow)]
            exact ⟨_, rfl⟩
          rcases hselsome with ⟨op, hop⟩
          cases hw : write_cell t id (op.apply lhs rhs) with
          | error e =>
              right; right; left
              rw [write_cell_error_elim hw] at hw
              simp only [drain, h2, h1, hop, hw]
          | ok t1 =>
              rcases write_cell_ok_elim hw with ⟨ht1, hlt⟩
              have hmono1 : ∀ j, (t.getD j none).isSome = true →
                  (t1.getD j none).isSome = true := by
                intro j hj
                rw [ht1]
                exact getD_set_isSome_mono hj
              have hqrest : queue_ok circ t1 rest :=
                queue_ok_mono hmono1 (queue_ok_of_cons hq)
              by_cases hout : id = circ.output
              · have hred : drain circ (fuel + 1) t (id :: rest) =
                    drain circ fuel t1 rest := by
                  simp only [drain, h2, h1, hop, hw]
                  rw [if_pos hout]
                rcases ih t1 rest hqrest with ⟨t', h⟩ | h | h | h
                · left; exact ⟨t', by rw [hred, h]⟩
                · right; left; rw [hred, h]
                · right; right; left; rw [hred, h]
                · right; right; right; rw [hred, h]
              · cases hcc : circ.get_copy_constraints id with
                | none =>
                    right; left
                    simp only [drain, h2, h1, hop, hw, hcc]
                    rw [if_neg hout]
                | some s =>
                    rcases propagate_set_spec circ (op.apply lhs rhs) s t1 rest with
                      herr | ⟨t2, q2, hp, hmono2, hqok2⟩
                    · right; right; left
                      simp only [drain, h2, h1, hop, hw, hcc, herr]
                      rw [if_neg hout]
                    · have hred : drain circ (fuel + 1) t (id :: rest) =
                          drain circ fuel t2 q2 := by
                        simp only [drain, h2, h1, hop, hw, hcc, hp]
                        rw [if_neg hout]
                      rcases ih t2 q2 (hqok2 hqrest) with ⟨t', h⟩ | h | h | h
                      · left; exact ⟨t', by rw [hred, h]⟩
                      · right; left; rw [hred, h]
                      · right; right; left; rw [hred, h]
                      · right; right; right; rw [hred, h]

lemma collect_trace_ok_length {t : List (Option F)} {l : List F}
    (h : collect_trace t = .ok l) : l.length = t.length := by
  induction t generalizing l with
  | nil =>
      cases h
      rfl
  | cons o rest ih =>
      cases o with
      | none => cases h
      | some v =>
          unfold collect_trace at h
          cases hc : collect_trace rest with
          | error e => rw [hc] at h; cases h
          | ok vs =>
              rw [hc] at h
              cases h
              simp [ih hc]

lemma collect_trace_error_elim {t : List (Option F)} {m : String}
    (h : collect_trace t = .error m) : m = incomplete_msg := by
  induction t with
  | nil => cases h
  | cons o rest ih =>
      cases o with
      | none =>
          cases h
          rfl
      | some v =>
          unfold collect_trace at h
          cases hc : collect_trace rest with
          | error e =>
              rw [hc] at h
              cases h
              exact ih hc
          | ok vs => rw [hc] at h; cases h

lemma collect_trace_none {t : List (Option F)} (h : none ∈ t) :
    collect_trace t = .error incomplete_msg := by
  induction t with
  | nil => cases h
  | cons o rest ih =>
      cases o with
      | none => rfl
      | some v =>
          rcases List.mem_cons.mp h with h' | h'
          · cases h'
          · unfold collect_trace
            rw [ih h']

end Engine


/-! ## Assembly helpers -/

lemma input_phase_ok_length {F : Type} [CommRing F] {circ : Circuit} {pub priv : List F}
    {t0 : List (Option F)} {q0 : List Nat} (h : input_phase circ pub priv = .ok (t0, q0)) :
    t0.length = circ.n_cells := by
  unfold input_phase at h
  have := input_phase_go_ok_length h
  simpa using this

lemma witness_phases_ok_length {F : Type} [CommRing F] {fuel : Nat} {circ : Circuit}
    {pub priv : List F} {t : List (Option F)}
    (h : witness_phases fuel circ pub priv = .ok t) : t.length = circ.n_cells := by
  unfold witness_phases at h
  cases hip : input_phase circ pub priv with
  | error e => simp only [hip] at h; cases h
  | ok st =>
      cases st with
      | mk t0 q0 =>
          simp only [hip] at h
          rw [drain_ok_length h]
          exact input_phase_ok_length hip

lemma common_poly_unfold {F : Type} [Field F] (ω : F) (circ : Circuit) :
    common_compute_selector_polynomial ω circ =
      Except.bind (common_selector_evals circ) (fun evals =>
        .ok (idft ω (next_power_of_two circ.n_cells) evals)) := rfl

lemma calculate_witness_ok_length {F : Type} [CommRing F] {fuel : Nat} {circ : Circuit}
    {pub priv trace : List F} (h : calculate_witness fuel circ pub priv = .ok trace) :
    trace.length = circ.n_cells := by
  unfold calculate_witness at h
  cases hp : witness_phases fuel circ pub priv with
  | error e => simp only [hp] at h; cases h
  | ok t =>
      simp only [hp] at h
      rw [collect_trace_ok_length h]
      exact witness_phases_ok_length hp

/-! ## Witness-engine soundness for gates-only circuits

For circuits whose wiring pairs all come from validated gate calls, the
copy-constraint sets are pairwise disjoint and structurally constrained
(`gate_set_ok`), which makes the two propagation phases preserve
set-consistency (`sets_consistent`) and partial gate correctness
(`gate_partial`); a successful run therefore returns a trace satisfying
both the gate equations and the copy constraints. -/

lemma getD_set_self {F : Type} {t : List (Option F)} {i : Nat} {v : F}
    (h : i < t.length) : (t.set i (some v)).getD i none = some v := by
  rw [List.getD_eq_getElem?_getD, List.getElem?_set_eq_of_lt _ h]
  rfl

lemma getD_set_ne {F : Type} {t : List (Option F)} {i j : Nat} {v : F}
    (h : i ≠ j) : (t.set i (some v)).getD j none = t.getD j none := by
  rw [List.getD_eq_getElem?_getD, List.getElem?_set_ne h, ← List.getD_eq_getElem?_getD]

lemma getD_replicate_none {F : Type} : ∀ (n c : Nat),
    (List.replicate n (none : Option F)).getD c none = none := by
  intro n
  induction n with
  | zero => intro c; simp
  | succ n ih =>
      intro c
      rw [List.replicate_succ]
      cases c with
      | zero => rfl
      | succ c =>
          rw [List.getD_cons_succ]
          exact ih c

lemma disjoint_unique_set : ∀ {sets : List (List Nat)}, sets_pairwise_disjoint sets →
    ∀ {s u : List Nat} {a : Nat}, s ∈ sets → u ∈ sets → a ∈ s → a ∈ u → s = u := by
  intro sets
  induction sets with
  | nil =>
      intro _ s u a hs _ _ _
      cases hs
  | cons w ws ih =>
      intro hd s u a hs hu has hau
      unfold sets_pairwise_disjoint at hd
      rcases List.pairwise_cons.mp hd with ⟨hw, hws⟩
      rcases List.mem_cons.mp hs with hsw | hs'
      · rcases List.mem_cons.mp hu with huw | hu'
        · rw [hsw, huw]
        · exact absurd hau (hw u hu' a (by rw [← hsw]; exact has))
      · rcases List.mem_cons.mp hu with huw | hu'
        · exact absurd has (hw s hs' a (by rw [← huw]; exact hau))
        · exact ih hws hs' hu' has hau

lemma get_copy_constraints_some_elim {c : Circuit} {a : Nat} {s : List Nat}
    (h : c.get_copy_constraints a = some s) : s ∈ c.copy_constraints ∧ a ∈ s := by
  unfold Circuit.get_copy_constraints at h
  refine ⟨List.mem_of_find?_eq_some h, ?_⟩
  have := List.find?_some h
  simpa using this

lemma get_selector_getD {circ : Circuit} {r : Nat} {op : Op}
    (h : circ.get_selector r = some op) : circ.selectors.getD r Op.Add = op := by
  unfold Circuit.get_selector at h
  rw [List.getD_eq_getElem?_getD, h]
  rfl

lemma collect_trace_getD_lt {F : Type} [CommRing F] : ∀ {t : List (Option F)} {l : List F},
    collect_trace t = .ok l → ∀ c < t.length, t.getD c none = some (l.getD c 0) := by
  intro t
  induction t with
  | nil =>
      intro l h c hc
      simp at hc
  | cons o rest ih =>
      intro l h c hc
      cases o with
      | none => cases h
      | some w =>
          unfold collect_trace at h
          cases hr : collect_trace rest with
          | error e => rw [hr] at h; cases h
          | ok vs =>
              rw [hr] at h
              cases h
              cases c with
              | zero => rw [List.getD_cons_zero, List.getD_cons_zero]
              | succ c =>
                  rw [List.getD_cons_succ, List.getD_cons_succ]
                  exact ih hr c (by simp only [List.length_cons] at hc; omega)

lemma sets_consistent_ext {F : Type} {circ : Circuit} {t t' : List (Option F)}
    (hext : ∀ c, t'.getD c none = t.getD c none) (h : sets_consistent circ t) :
    sets_consistent circ t' := by
  intro s hs a ha b hb
  rw [hext a, hext b]
  exact h s hs a ha b hb

lemma gate_partial_ext {F : Type} [CommRing F] {circ : Circuit} {t t' : List (Option F)}
    (hext : ∀ c, t'.getD c none = t.getD c none) (h : gate_partial circ t) :
    gate_partial circ t' := by
  intro r hr w hw
  rw [hext] at hw
  rcases h r hr w hw with ⟨a, b, ha, hb, heq⟩
  exact ⟨a, b, by rw [hext]; exact ha, by rw [hext]; exact hb, heq⟩

lemma propagate_set_ok_getD {F : Type} [CommRing F] {circ : Circuit} {v : F} :
    ∀ {s : List Nat} {t0 t : List (Option F)} {q0 q : List Nat},
      propagate_set circ v s t0 q0 = .ok (t, q) →
      ∀ c, t.getD c none = if c ∈ s then some v else t0.getD c none := by
  intro s
  induction s with
  | nil =>
      intro t0 t q0 q h c
      unfold propagate_set at h
      cases h
      simp
  | cons cell_id srest ih =>
      intro t0 t q0 q h c
      cases hw : write_cell t0 cell_id v with
      | error e => rw [propagate_set_cons_error hw] at h; cases h
      | ok t1 =>
          rcases write_cell_ok_elim hw with ⟨ht1, hlt⟩
          have hstep : t.getD c none = if c ∈ srest then some v else t1.getD c none := by
            rw [propagate_set_cons_ok hw] at h
            split at h
            · split at h
              · exact ih h c
              · exact ih h c
            · exact ih h c
          rw [hstep, ht1]
          by_cases hc : c ∈ srest
          · rw [if_pos hc, if_pos (List.mem_cons_of_mem _ hc)]
          · rw [if_neg hc]
            by_cases hcc : c = cell_id
            · subst hcc
              rw [if_pos (List.mem_cons_self _ _), getD_set_self hlt]
            · rw [getD_set_ne (fun h' => hcc h'.symm),
                if_neg (by simp [List.mem_cons, hc, hcc])]

lemma propagate_set_ok_queue {F : Type} [CommRing F] {circ : Circuit} {v : F}
    {s : List Nat} {t0 t : List (Option F)} {q0 q : List Nat}
    (h : propagate_set circ v s t0 q0 = .ok (t, q)) (hq0 : queue_ok circ t0 q0) :
    queue_ok circ t q := by
  rcases propagate_set_spec circ v s t0 q0 with herr | ⟨t2, q2, hok, _, hqok⟩
  · rw [herr] at h
    cases h
  · rw [hok] at h
    injection h with hpair
    have ht : t2 = t := congrArg Prod.fst hpair
    have hq : q2 = q := congrArg Prod.snd hpair
    subst ht
    subst hq
    exact hqok hq0

lemma input_phase_go_queue_ok {F : Type} [CommRing F] {circ : Circuit}
    {pub priv : List F} :
    ∀ {is : List Nat} {st : List (Option F) × List Nat} {t : List (Option F)}
      {q : List Nat},
      input_phase_go circ pub priv is st = .ok (t, q) → queue_ok circ st.1 st.2 →
      queue_ok circ t q := by
  intro is
  induction is with
  | nil =>
      intro st t q h hq
      unfold input_phase_go at h
      cases h
      exact hq
  | cons i is ih =>
      intro st t q h hq
      unfold input_phase_go at h
      cases hv : get_input_val pub priv i with
      | none => simp only [hv] at h; cases h
      | some v =>
          simp only [hv] at h
          cases hw : write_cell st.1 (circ.n_cells - (i + 1)) v with
          | error e => simp only [hw] at h; cases h
          | ok t1 =>
              simp only [hw] at h
              cases hcc : circ.get_copy_constraints (circ.n_cells - (i + 1)) with
              | none => simp only [hcc] at h; cases h
              | some s =>
                  simp only [hcc] at h
                  cases hp : propagate_set circ v s t1 st.2 with
                  | error e => simp only [hp] at h; cases h
                  | ok st' =>
                      cases st' with
                      | mk t2 q2 =>
                          simp only [hp] at h
                          rcases write_cell_ok_elim hw with ⟨ht1, _⟩
                          have hq1 : queue_ok circ t1 st.2 := by
                            refine queue_ok_mono ?_ hq
                            intro j hj
                            rw [ht1]
                            exact getD_set_isSome_mono hj
                          exact ih h (propagate_set_ok_queue hp hq1)

lemma input_phase_queue_ok {F : Type} [CommRing F] {circ : Circuit} {pub priv : List F}
    {t : List (Option F)} {q : List Nat} (h : input_phase circ pub priv = .ok (t, q)) :
    queue_ok circ t q := by
  unfold input_phase at h
  refine input_phase_go_queue_ok h ?_
  intro id hid
  cases hid

lemma wiring_step_gate_set_ok {R : Nat} {sets : List (List Nat)} {p : Nat × Nat}
    (hall : ∀ s ∈ sets, gate_set_ok R s) (hf : ¬ mem_sets p.2 sets)
    (hy1 : p.2 % 3 ≠ 2) (hy2 : p.2 < 3 * R) :
    ∀ s ∈ wiring_step sets p, gate_set_ok R s := by
  unfold wiring_step
  cases h1 : insert_into_first p.1 p.2 sets with
  | some sets2 =>
      rcases insert_into_first_some h1 with ⟨pre, s, post, hsets, hx, hpre, hsets2⟩
      subst hsets2
      subst hsets
      intro u hu
      rcases List.mem_append.mp hu with hu | hu
      · exact hall u (List.mem_append.mpr (Or.inl hu))
      · rcases List.mem_cons.mp hu with rfl | hu
        · rcases hall s (List.mem_append.mpr (Or.inr (List.mem_cons_self _ _))) with
            ⟨hs1, hs2, hs3⟩
          refine ⟨?_, ?_, ?_⟩
          · intro a ha b hb hoa hob
            rcases insert_elem_mem.mp ha with ha | rfl
            · rcases insert_elem_mem.mp hb with hb | rfl
              · exact hs1 a ha b hb hoa hob
              · exact absurd hob.1 hy1
            · exact absurd hoa.1 hy1
          · intro a ha b hb hba hbb
            rcases insert_elem_mem.mp ha with ha | rfl
            · rcases insert_elem_mem.mp hb with hb | rfl
              · exact hs2 a ha b hb hba hbb
              · omega
            · omega
          · intro a ha b hb hoa hbb
            rcases insert_elem_mem.mp ha with ha | rfl
            · rcases insert_elem_mem.mp hb with hb | rfl
              · exact hs3 a ha b hb hoa hbb
              · omega
            · exact absurd hoa.1 hy1
        · exact hall u (List.mem_append.mpr (Or.inr (List.mem_cons_of_mem _ hu)))
  | none =>
      cases h2 : insert_into_first p.2 p.1 sets with
      | some sets2 => exact absurd (insert_into_first_some_mem h2).1 hf
      | none =>
          intro u hu
          rcases List.mem_append.mp hu with hu | hu
          · exact hall u hu
          · rcases List.mem_singleton.mp hu with rfl
            have hmem : ∀ a, a ∈ (if p.1 = p.2 then [p.1] else [p.1, p.2]) →
                a = p.1 ∨ a = p.2 := by
              intro a ha
              split at ha
              · exact Or.inl (List.mem_singleton.mp ha)
              · rcases List.mem_cons.mp ha with rfl | ha
                · exact Or.inl rfl
                · exact Or.inr (List.mem_singleton.mp ha)
            refine ⟨?_, ?_, ?_⟩
            · intro a ha b hb hoa hob
              rcases hmem a ha with rfl | rfl
              · rcases hmem b hb with rfl | rfl
                · rfl
                · exact absurd hob.1 hy1
              · exact absurd hoa.1 hy1
            · intro a ha b hb hba hbb
              rcases hmem a ha with rfl | rfl
              · rcases hmem b hb with rfl | rfl
                · rfl
                · omega
              · omega
            · intro a ha b hb hoa hbb
              rcases hmem a ha with rfl | rfl
              · rcases hmem b hb with rfl | rfl
                · rcases hoa with ⟨ho1, ho2⟩
                  omega
                · omega
              · exact absurd hoa.1 hy1

lemma foldl_wiring_step_gate_set_ok {R : Nat} :
    ∀ {ps : List (Nat × Nat)} {init : List (List Nat)},
      (∀ s ∈ init, gate_set_ok R s) →
      (∀ p ∈ ps, ¬ mem_sets p.2 init) →
      List.Pairwise (fun p q : Nat × Nat => q.2 ≠ p.1 ∧ q.2 ≠ p.2) ps →
      (∀ p ∈ ps, p.2 % 3 ≠ 2 ∧ p.2 < 3 * R) →
      ∀ s ∈ ps.foldl wiring_step init, gate_set_ok R s := by
  intro ps
  induction ps with
  | nil =>
      intro init hall _ _ _
      exact hall
  | cons p ps ih =>
      intro init hall hfresh hpw hy
      rw [List.foldl_cons]
      rcases List.pairwise_cons.mp hpw with ⟨hhead, htail⟩
      refine ih (wiring_step_gate_set_ok hall (hfresh p (by simp))
          (hy p (by simp)).1 (hy p (by simp)).2) ?_ htail
          (fun q hq => hy q (List.mem_cons_of_mem _ hq))
      intro q hq hmem
      rw [wiring_step_mem q.2] at hmem
      rcases hmem with hmem | h | h
      · exact hfresh q (List.mem_cons_of_mem _ hq) hmem
      · exact (hhead q hq).1 h
      · exact (hhead q hq).2 h

lemma init_sets_gate_set_ok (R n_input n_cells : Nat) :
    ∀ s ∈ init_sets n_input n_cells, gate_set_ok R s := by
  intro s hs
  unfold init_sets at hs
  rcases List.mem_map.mp hs with ⟨k, _, rfl⟩
  refine ⟨?_, ?_, ?_⟩
  · intro a ha b hb _ _
    rcases List.mem_singleton.mp ha with rfl
    rcases List.mem_singleton.mp hb with rfl
    rfl
  · intro a ha b hb _ _
    rcases List.mem_singleton.mp ha with rfl
    rcases List.mem_singleton.mp hb with rfl
    rfl
  · intro a ha b hb hoa hbb
    rcases List.mem_singleton.mp ha with rfl
    rcases List.mem_singleton.mp hb with rfl
    rcases hoa with ⟨ho1, ho2⟩
    omega

lemma gate_set_ok_map_sort {R : Nat} {sets : List (List Nat)}
    (h : ∀ s ∈ sets, gate_set_ok R s) :
    ∀ s ∈ sets.map (List.insertionSort (· ≤ ·)), gate_set_ok R s := by
  intro s hs
  rcases List.mem_map.mp hs with ⟨u, hu, rfl⟩
  have hperm := List.perm_insertionSort (· ≤ ·) u
  rcases h u hu with ⟨h1, h2, h3⟩
  exact ⟨fun a ha b hb => h1 a (hperm.mem_iff.mp ha) b (hperm.mem_iff.mp hb),
    fun a ha b hb => h2 a (hperm.mem_iff.mp ha) b (hperm.mem_iff.mp hb),
    fun a ha b hb => h3 a (hperm.mem_iff.mp ha) b (hperm.mem_iff.mp hb)⟩

/-- The structural facts about the copy-constraint sets of a circuit built
from a gates-only call sequence: the sets are pairwise disjoint, each has
at most one row-`out` cell and at most one input cell and never both
(`gate_set_ok`), and the circuit's output cell is covered by no set. -/
lemma built_gates_structure {cfg : InputConfig} {cmds : List BuilderCmd}
    {b : CircuitBuilder} {circ : Circuit}
    (hrun : runCmds (CircuitBuilder.new cfg) cmds = .ok b) (hbuild : b.build = .ok circ)
    (hwf : ∀ c ∈ cmds, c.isWire = false) :
    sets_pairwise_disjoint circ.copy_constraints ∧
    (∀ s ∈ circ.copy_constraints, gate_set_ok circ.n_rows s) ∧
    ¬ mem_sets circ.output circ.copy_constraints := by
  rcases build_ok_elim hbuild with ⟨hic, hsel, hrows, hcells, hpos, hout, rps, hrps, hcc⟩
  rcases runCmds_shape hrun with ⟨hic0, hlen⟩
  have hg := runCmds_gate_shaped hrun hwf
  have hC : b.input_config.total_input + b.current_row * 3 ≤ circ.n_cells := by
    omega
  rcases gate_shaped_resolve hg hC with ⟨rps', hrps', hq1, hq4, hq2, hq3⟩
  have hsame : rps' = rps := by
    have := hrps'.symm.trans hrps
    cases this
    rfl
  subst hsame
  have hfresh : ∀ p ∈ rps', ¬ mem_sets p.2 (init_sets b.input_config.total_input
      circ.n_cells) := by
    intro p hp hmem
    rw [init_sets_mem] at hmem
    rcases hmem with ⟨k, hk1, hk2, heq⟩
    have h1 := hq1 p hp
    omega
  refine ⟨?_, ?_, ?_⟩
  · rw [hcc]
    apply disjoint_map_sort
    apply foldl_wiring_step_disjoint
    · exact init_sets_disjoint _ _ (by omega)
    · exact hfresh
    · exact hq3
  · rw [hcc]
    apply gate_set_ok_map_sort
    apply foldl_wiring_step_gate_set_ok
    · exact init_sets_gate_set_ok _ _ _
    · exact hfresh
    · exact hq3
    · intro p hp
      refine ⟨hq4 p hp, ?_⟩
      have h1 := hq1 p hp
      omega
  · intro hmem
    rw [hcc, mem_sets_map_sort, foldl_wiring_step_mem, init_sets_mem] at hmem
    rcases hmem with ⟨k, hk1, hk2, heq⟩ | ⟨p, hp, heq | heq⟩
    · omega
    · rcases hq2 p hp with h | h <;> omega
    · have h1 := hq1 p hp
      have h4 := hq4 p hp
      omega

/-- The input phase of `calculate_witness` on a gates-only circuit
preserves set-consistency, and leaves every row `out` cell unassigned
(each propagated set holds exactly one input cell and no `out` cell). -/
lemma input_phase_go_sound {F : Type} [CommRing F] {circ : Circuit} {pub priv : List F}
    (hdis : sets_pairwise_disjoint circ.copy_constraints)
    (hgs : ∀ s ∈ circ.copy_constraints, gate_set_ok circ.n_rows s)
    (hcells : circ.n_cells = circ.n_inputs + 3 * circ.n_rows) :
    ∀ (is : List Nat) (st : List (Option F) × List Nat) (tf : List (Option F))
      (qf : List Nat),
      is.Nodup → (∀ i ∈ is, i < circ.n_inputs) →
      sets_consistent circ st.1 →
      (∀ c, out_cell circ.n_rows c → st.1.getD c none = none) →
      (∀ i ∈ is, st.1.getD (circ.n_cells - (i + 1)) none = none) →
      input_phase_go circ pub priv is st = .ok (tf, qf) →
      sets_consistent circ tf ∧
      (∀ c, out_cell circ.n_rows c → tf.getD c none = none) := by
  intro is
  induction is with
  | nil =>
      intro st tf qf _ _ hcons houts _ h
      unfold input_phase_go at h
      cases h
      exact ⟨hcons, houts⟩
  | cons i is ih =>
      intro st tf qf hnd hlt hcons houts hunp h
      unfold input_phase_go at h
      cases hv : get_input_val pub priv i with
      | none => simp only [hv] at h; cases h
      | some v =>
          simp only [hv] at h
          cases hw : write_cell st.1 (circ.n_cells - (i + 1)) v with
          | error e => simp only [hw] at h; cases h
          | ok t1 =>
              simp only [hw] at h
              cases hcc : circ.get_copy_constraints (circ.n_cells - (i + 1)) with
              | none => simp only [hcc] at h; cases h
              | some s =>
                  simp only [hcc] at h
                  cases hp : propagate_set circ v s t1 st.2 with
                  | error e => simp only [hp] at h; cases h
                  | ok st' =>
                      cases st' with
                      | mk t2 q2 =>
                          simp only [hp] at h
                          rcases write_cell_ok_elim hw with ⟨ht1, hltw⟩
                          rcases get_copy_constraints_some_elim hcc with ⟨hsmem, hid_s⟩
                          rcases List.nodup_cons.mp hnd with ⟨hni, hnd'⟩
                          have hii : i < circ.n_inputs := hlt i (by simp)
                          have hbig : 3 * circ.n_rows ≤ circ.n_cells - (i + 1) := by
                            omega
                          have hid_none : st.1.getD (circ.n_cells - (i + 1)) none = none :=
                            hunp i (by simp)
                          have hallnone : ∀ c ∈ s, st.1.getD c none = none := by
                            intro c hc
                            have := hcons s hsmem c hc (circ.n_cells - (i + 1)) hid_s
                            rw [this, hid_none]
                          have hchar : ∀ c, t2.getD c none =
                              if c ∈ s then some v else t1.getD c none :=
                            propagate_set_ok_getD hp
                          have hext : ∀ c, c ∉ s → t2.getD c none = st.1.getD c none := by
                            intro c hcs
                            have hne : circ.n_cells - (i + 1) ≠ c := by
                              intro he
                              exact hcs (by rw [← he]; exact hid_s)
                            rw [hchar c, if_neg hcs, ht1, getD_set_ne hne]
                          have hno_out : ∀ c ∈ s, ¬ out_cell circ.n_rows c := by
                            intro c hc ho
                            exact (hgs s hsmem).2.2 c hc (circ.n_cells - (i + 1)) hid_s ho hbig
                          have hcons2 : sets_consistent circ t2 := by
                            intro u hu a ha b hb
                            by_cases hus : u = s
                            · subst hus
                              rw [hchar a, hchar b, if_pos ha, if_pos hb]
                            · have hins : ∀ c ∈ u, c ∉ s := fun c hc hcs =>
                                hus (disjoint_unique_set hdis hu hsmem hc hcs)
                              rw [hext a (hins a ha), hext b (hins b hb)]
                              exact hcons u hu a ha b hb
                          have houts2 : ∀ c, out_cell circ.n_rows c →
                              t2.getD c none = none := by
                            intro c ho
                            rw [hext c (fun hc => hno_out c hc ho)]
                            exact houts c ho
                          have hunp2 : ∀ j ∈ is,
                              t2.getD (circ.n_cells - (j + 1)) none = none := by
                            intro j hj
                            have hjj : j < circ.n_inputs := hlt j (List.mem_cons_of_mem _ hj)
                            have hji : j ≠ i := fun he => hni (he ▸ hj)
                            have hjbig : 3 * circ.n_rows ≤ circ.n_cells - (j + 1) := by
                              omega
                            have hnotin : circ.n_cells - (j + 1) ∉ s := by
                              intro hcs
                              have := (hgs s hsmem).2.1 (circ.n_cells - (j + 1)) hcs
                                (circ.n_cells - (i + 1)) hid_s hjbig hbig
                              omega
                            rw [hext _ hnotin]
                            exact hunp j (List.mem_cons_of_mem _ hj)
                          exact ih (t2, q2) tf qf hnd'
                            (fun j hj => hlt j (List.mem_cons_of_mem _ hj))
                            hcons2 houts2 hunp2 h

lemma input_phase_sound {F : Type} [CommRing F] {circ : Circuit} {pub priv : List F}
    {t : List (Option F)} {q : List Nat}
    (hdis : sets_pairwise_disjoint circ.copy_constraints)
    (hgs : ∀ s ∈ circ.copy_constraints, gate_set_ok circ.n_rows s)
    (hcells : circ.n_cells = circ.n_inputs + 3 * circ.n_rows)
    (h : input_phase circ pub priv = .ok (t, q)) :
    sets_consistent circ t ∧ (∀ c, out_cell circ.n_rows c → t.getD c none = none) := by
  unfold input_phase at h
  refine input_phase_go_sound hdis hgs hcells (List.range circ.n_inputs) _ t q
    (List.nodup_range _) (fun i hi => List.mem_range.mp hi) ?_ ?_ ?_ h
  · intro s hs a ha b hb
    show (List.replicate circ.n_cells (none : Option F)).getD a none =
      (List.replicate circ.n_cells (none : Option F)).getD b none
    rw [getD_replicate_none, getD_replicate_none]
  · intro c _
    exact getD_replicate_none _ _
  · intro i _
    exact getD_replicate_none _ _

/-- The queue loop of `calculate_witness` on a gates-only circuit
preserves set-consistency and partial gate correctness: each popped
address is the single `out` cell of its copy-constraint set, so
propagating the freshly computed value through the set either fills
previously unassigned cells or rewrites every cell of the set with the
value it already held. -/
lemma drain_sound {F : Type} [CommRing F] {circ : Circuit}
    (hdis : sets_pairwise_disjoint circ.copy_constraints)
    (hgs : ∀ s ∈ circ.copy_constraints, gate_set_ok circ.n_rows s)
    (hnot : ¬ mem_sets circ.output circ.copy_constraints) :
    ∀ (fuel : Nat) (t : List (Option F)) (q : List Nat) (t' : List (Option F)),
      queue_ok circ t q → sets_consistent circ t → gate_partial circ t →
      drain circ fuel t q = .ok t' →
      sets_consistent circ t' ∧ gate_partial circ t' := by
  intro fuel
  induction fuel with
  | zero =>
      intro t q t' _ _ _ h
      cases h
  | succ fuel ih =>
      intro t q t' hq hcons hgp h
      cases q with
      | nil =>
          unfold drain at h
          cases h
          exact ⟨hcons, hgp⟩
      | cons id rest =>
          rcases hq id (by simp) with ⟨hmod, hrow, _, _⟩
          unfold drain at h
          cases h2 : t.getD (id - 2) none with
          | none => simp only [h2] at h; cases h
          | some lhs =>
              simp only [h2] at h
              cases h1 : t.getD (id - 1) none with
              | none => simp only [h1] at h; cases h
              | some rhs =>
                  simp only [h1] at h
                  cases hop : circ.get_selector (id / 3) with
                  | none => simp only [hop] at h; cases h
                  | some op =>
                      simp only [hop] at h
                      cases hw : write_cell t id (op.apply lhs rhs) with
                      | error e => simp only [hw] at h; cases h
                      | ok t1 =>
                          simp only [hw] at h
                          rcases write_cell_ok_elim hw with ⟨ht1, hlt⟩
                          have hqrest : queue_ok circ t1 rest := by
                            refine queue_ok_mono ?_ (queue_ok_of_cons hq)
                            intro j hj
                            rw [ht1]
                            exact getD_set_isSome_mono hj
                          by_cases hout : id = circ.output
                          · rw [if_pos hout] at h
                            have hidne : ∀ u ∈ circ.copy_constraints, ∀ a ∈ u, a ≠ id := by
                              intro u hu a ha he
                              exact hnot ⟨u, hu, by rw [← hout, ← he]; exact ha⟩
                            have hcons1 : sets_consistent circ t1 := by
                              intro u hu a ha b hb
                              rw [ht1, getD_set_ne (fun he => hidne u hu a ha he.symm),
                                getD_set_ne (fun he => hidne u hu b hb he.symm)]
                              exact hcons u hu a ha b hb
                            have hgp1 : gate_partial circ t1 := by
                              intro r hr w hw'
                              by_cases hre : 3 * r + 2 = id
                              · have e2 : id - 2 = 3 * r := by omega
                                have e1 : id - 1 = 3 * r + 1 := by omega
                                have e3 : id / 3 = r := by omega
                                rw [ht1, ← hre,
                                  getD_set_self (by omega : 3 * r + 2 < t.length)] at hw'
                                cases hw'
                                refine ⟨lhs, rhs, ?_, ?_, ?_⟩
                                · rw [ht1, getD_set_ne (by omega : id ≠ 3 * r), ← e2]
                                  exact h2
                                · rw [ht1, getD_set_ne (by omega : id ≠ 3 * r + 1), ← e1]
                                  exact h1
                                · rw [← e3, get_selector_getD hop]
                              · have hne3 : id ≠ 3 * r + 2 := fun he => hre he.symm
                                rw [ht1, getD_set_ne hne3] at hw'
                                rcases hgp r hr w hw' with ⟨a, b, ha, hb, heq⟩
                                refine ⟨a, b, ?_, ?_, heq⟩
                                · rw [ht1, getD_set_ne (by omega : id ≠ 3 * r)]
                                  exact ha
                                · rw [ht1, getD_set_ne (by omega : id ≠ 3 * r + 1)]
                                  exact hb
                            exact ih t1 rest t' hqrest hcons1 hgp1 h
                          · rw [if_neg hout] at h
                            cases hcc : circ.get_copy_constraints id with
                            | none => simp only [hcc] at h; cases h
                            | some s =>
                                simp only [hcc] at h
                                cases hp : propagate_set circ (op.apply lhs rhs) s t1
                                    rest with
                                | error e => simp only [hp] at h; cases h
                                | ok st' =>
                                    cases st' with
                                    | mk t2 q2 =>
                                        simp only [hp] at h
                                        rcases get_copy_constraints_some_elim hcc with
                                          ⟨hsmem, hid_s⟩
                                        have hchar : ∀ c, t2.getD c none =
                                            if c ∈ s then some (op.apply lhs rhs)
                                            else t1.getD c none :=
                                          propagate_set_ok_getD hp
                                        have hq2ok : queue_ok circ t2 q2 :=
                                          propagate_set_ok_queue hp hqrest
                                        have hextns : ∀ c, c ∉ s →
                                            t2.getD c none = t.getD c none := by
                                          intro c hcs
                                          have hne : id ≠ c := fun he => hcs (he ▸ hid_s)
                                          rw [hchar c, if_neg hcs, ht1, getD_set_ne hne]
                                        cases hido : t.getD id none with
                                        | some w0 =>
                                            have e3 : 3 * (id / 3) + 2 = id := by omega
                                            rcases hgp (id / 3) hrow w0
                                                (by rw [e3]; exact hido) with
                                              ⟨a, b, ha, hb, heq⟩
                                            have ea : a = lhs := by
                                              have e2 : 3 * (id / 3) = id - 2 := by omega
                                              rw [e2, h2] at ha
                                              injection ha with ha'
                                              exact ha'.symm
                                            have eb : b = rhs := by
                                              have e1 : 3 * (id / 3) + 1 = id - 1 := by
                                                omega
                                              rw [e1, h1] at hb
                                              injection hb with hb'
                                              exact hb'.symm
                                            have hw0 : w0 = op.apply lhs rhs := by
                                              rw [heq, get_selector_getD hop, ea, eb]
                                            have hext : ∀ c, t2.getD c none =
                                                t.getD c none := by
                                              intro c
                                              by_cases hcs : c ∈ s
                                              · rw [hchar c, if_pos hcs]
                                                have := hcons s hsmem c hcs id hid_s
                                                rw [this, hido, hw0]
                                              · exact hextns c hcs
                                            exact ih t2 q2 t' hq2ok
                                              (sets_consistent_ext hext hcons)
                                              (gate_partial_ext hext hgp) h
                                        | none =>
                                            have hallnone : ∀ c ∈ s,
                                                t.getD c none = none := by
                                              intro c hc
                                              have := hcons s hsmem c hc id hid_s
                                              rw [this, hido]
                                            have hcons2 : sets_consistent circ t2 := by
                                              intro u hu a ha b hb
                                              by_cases hus : u = s
                                              · subst hus
                                                rw [hchar a, hchar b, if_pos ha, if_pos hb]
                                              · have hins : ∀ c ∈ u, c ∉ s :=
                                                  fun c hc hcs => hus
                                                    (disjoint_unique_set hdis hu hsmem
                                                      hc hcs)
                                                rw [hextns a (hins a ha),
                                                  hextns b (hins b hb)]
                                                exact hcons u hu a ha b hb
                                            have hgp2 : gate_partial circ t2 := by
                                              intro r hr w hw'
                                              by_cases h3s : 3 * r + 2 ∈ s
                                              · have heqid : 3 * r + 2 = id :=
                                                  (hgs s hsmem).1 (3 * r + 2) h3s id hid_s
                                                    (by unfold out_cell; omega)
                                                    (by unfold out_cell; exact ⟨hmod, hrow⟩)
                                                have hwv : w = op.apply lhs rhs := by
                                                  rw [hchar (3 * r + 2), if_pos h3s] at hw'
                                                  injection hw' with hw''
                                                  exact hw''.symm
                                                have hlns : id - 2 ∉ s := by
                                                  intro hmem
                                                  rw [hallnone _ hmem] at h2
                                                  cases h2
                                                have hrns : id - 1 ∉ s := by
                                                  intro hmem
                                                  rw [hallnone _ hmem] at h1
                                                  cases h1
                                                have e2 : 3 * r = id - 2 := by omega
                                                have e1 : 3 * r + 1 = id - 1 := by omega
                                                have e3 : id / 3 = r := by omega
                                                refine ⟨lhs, rhs, ?_, ?_, ?_⟩
                                                · rw [e2, hextns _ hlns]
                                                  exact h2
                                                · rw [e1, hextns _ hrns]
                                                  exact h1
                                                · rw [hwv, ← e3, get_selector_getD hop]
                                              · rw [hextns _ h3s] at hw'
                                                rcases hgp r hr w hw' with
                                                  ⟨a, b, ha, hb, heq⟩
                                                have hans : 3 * r ∉ s := by
                                                  intro hmem
                                                  rw [hallnone _ hmem] at ha
                                                  cases ha
                                                have hbns : 3 * r + 1 ∉ s := by
                                                  intro hmem
                                                  rw [hallnone _ hmem] at hb
                                                  cases hb
                                                refine ⟨a, b, ?_, ?_, heq⟩
                                                · rw [hextns _ hans]
                                                  exact ha
                                                · rw [hextns _ hbns]
                                                  exact hb
                                            exact ih t2 q2 t' hq2ok hcons2 hgp2 h

/-! ## Claim theorems -/

/-- C2: the worked example `out = (pub0 + priv0) * pub1 + priv0` with
`n_pub = 2`, `n_priv = 1`, built by `add_addition(pub0, priv0)`,
`add_multiplication(out_0, pub1)`, `add_addition(out_1, priv0)`: `build()`
yields selectors `[Add, Mul, Add]` and copy-constraint groups exactly
`[0,11], [4,10], [1,7,9], [2,3], [5,6]` (each sorted ascending), and with
inputs `pub = [3,5]`, `priv = [7]` the witness engine succeeds with trace
`[3,7,10,10,5,50,50,7,57,7,5,3]` at addresses `0..11`. -/
theorem c2_worked_example :
    runCmds (CircuitBuilder.new ⟨2, 1⟩) example_cmds = .ok example_builder ∧
    example_builder.build = .ok example_circuit ∧
    example_circuit.selectors = [Op.Add, Op.Mul, Op.Add] ∧
    example_circuit.copy_constraints = [[0, 11], [4, 10], [1, 7, 9], [2, 3], [5, 6]] ∧
    calculate_witness (F := Int) 100 example_circuit [3, 5] [7] =
      .ok [3, 7, 10, 10, 5, 50, 50, 7, 57, 7, 5, 3] := by
  refine ⟨by decide, by decide, rfl, rfl, by decide⟩

/-- C5: the claim states `get_input_refs` returns exactly one `CellRef` per
declared input, the public list being `[Input 1, …, Input n_pub]` of length
`n_pub`.  The code's public range is `(1..=pb_len + 1)`, so at
`n_pub = 2, n_priv = 1` the public list is `[Input 1, Input 2, Input 3]` of
length `3 = n_pub + 1`, overlapping the first private input — in general
the public list always has length `n_pub + 1` while the private list
matches the claim. -/
theorem c5_get_input_refs_bug :
    (CircuitBuilder.new ⟨2, 1⟩).get_input_refs =
      ([.Input 1, .Input 2, .Input 3], [.Input 3]) ∧
    ((CircuitBuilder.new ⟨2, 1⟩).get_input_refs).1.length = 2 + 1 ∧
    ∀ np npriv : Nat,
      ((CircuitBuilder.new ⟨np, npriv⟩).get_input_refs).1.length = np + 1 ∧
      ((CircuitBuilder.new ⟨np, npriv⟩).get_input_refs).2 =
        (List.range' (np + 1) npriv).map Cellref.Input := by
  refine ⟨by decide, by decide, fun np npriv => ⟨?_, rfl⟩⟩
  simp [CircuitBuilder.get_input_refs, CircuitBuilder.new]

/-- C7: `add_addition` and `add_multiplication` validate both operands
independently, `lhs` first: an `Input` reference with index 0 or greater
than `n_inputs` fails with an error naming that index, a `Wire` reference
with address `≥ 3 * current_row` fails with an error naming that address,
the error message is prefixed with the side (`LHS:` / `RHS:`) that was
invalid, and a failing call returns only the error (the state-passing
embedding produces no successor builder, mirroring that the Rust method
mutates nothing before validation completes). -/
theorem c7_validation :
    ∀ (b : CircuitBuilder) (lhs rhs : Cellref),
      (∀ x, (x = 0 ∨ b.input_config.total_input < x) →
        b.validate_cell_ref (.Input x) =
          .error ("Input " ++ toString x ++ " does not exist.")) ∧
      (∀ w, b.current_row * 3 ≤ w →
        b.validate_cell_ref (.Wire w) =
          .error ("Wire " ++ toString w ++ " does not exist.")) ∧
      (b.validate_cell_ref lhs = .ok () ↔
        valid_ref b.input_config.total_input b.current_row lhs) ∧
      (∀ e, b.validate_cell_ref lhs = .error e →
        b.add_addition lhs rhs = .error ("LHS: " ++ e) ∧
        b.add_multiplication lhs rhs = .error ("LHS: " ++ e)) ∧
      (∀ e, b.validate_cell_ref lhs = .ok () → b.validate_cell_ref rhs = .error e →
        b.add_addition lhs rhs = .error ("RHS: " ++ e) ∧
        b.add_multiplication lhs rhs = .error ("RHS: " ++ e)) := by
  intro b lhs rhs
  refine ⟨?_, ?_, validate_ok_iff b lhs, ?_, ?_⟩
  · intro x hx
    rw [validate_input_eq, if_pos hx]
  · intro w hw
    rw [validate_wire_eq, if_pos hw]
  · intro e he
    exact ⟨add_addition_error_lhs rhs he, add_multiplication_error_lhs rhs he⟩
  · intro e h1 h2
    exact ⟨add_addition_error_rhs h1 h2, add_multiplication_error_rhs h1 h2⟩

/-- Witness for C7, mirroring the repository's four unit tests on a
1-input builder with no rows. -/
theorem c7_validation_witness :
    ((CircuitBuilder.new ⟨1, 0⟩).validate_cell_ref (.Input 100) =
      .error "Input 100 does not exist.") ∧
    (CircuitBuilder.new ⟨1, 0⟩).add_addition (.Input 100) (.Input 1) =
      .error "LHS: Input 100 does not exist." ∧
    (CircuitBuilder.new ⟨1, 0⟩).add_addition (.Input 1) (.Wire 1) =
      .error "RHS: Wire 1 does not exist." ∧
    (CircuitBuilder.new ⟨1, 0⟩).add_multiplication (.Wire 1) (.Input 1) =
      .error "LHS: Wire 1 does not exist." := by
  have h := c7_validation (CircuitBuilder.new ⟨1, 0⟩)
  refine ⟨(h (.Input 100) (.Input 1)).1 100 (by decide), ?_, ?_, ?_⟩
  · exact ((h (.Input 100) (.Input 1)).2.2.2.1 "Input 100 does not exist." (by decide)).1
  · exact ((h (.Input 1) (.Wire 1)).2.2.2.2 "Wire 1 does not exist." (by decide) (by decide)).1
  · exact ((h (.Wire 1) (.Input 1)).2.2.2.1 "Wire 1 does not exist." (by decide)).2

/-- C10: `add_wire_constraint` is a total function performing no
validation: for every pair of `CellRef`s — including `Input` indices of 0
or greater than `n_inputs` and never-allocated `Wire` addresses — it only
appends the pair to `wiring_pairs`, leaving every other builder field
unchanged; such references are first dereferenced during `build()`'s
address resolution, where an `Input` index `i ≤ n_cells` resolves to
`n_cells - i` (and `i > n_cells` makes that resolution panic, still at
build time, not at recording time). -/
theorem c10_add_wire_constraint :
    ∀ (b : CircuitBuilder) (x y : Cellref),
      (b.add_wire_constraint x y).wiring_pairs = b.wiring_pairs ++ [(x, y)] ∧
      (b.add_wire_constraint x y).current_row = b.current_row ∧
      (b.add_wire_constraint x y).ops = b.ops ∧
      (b.add_wire_constraint x y).input_config = b.input_config ∧
      (∀ n w : Nat, resolve_ref n (.Wire w) = .ok w) ∧
      (∀ n i : Nat, i ≤ n → resolve_ref n (.Input i) = .ok (n - i)) ∧
      (∀ n i : Nat, n < i → resolve_ref n (.Input i) = .error sub_overflow_msg) := by
  intro b x y
  refine ⟨rfl, rfl, rfl, rfl, fun n w => rfl, fun n i h => resolve_input_le h, ?_⟩
  intro n i h
  have hre : resolve_ref n (Cellref.Input i) = checked_sub n i := rfl
  rw [hre]
  unfold checked_sub
  rw [if_neg (by omega)]

/-- Witness for C10: recording the out-of-range `Input 1000` succeeds and
only appends the pair; `Input 4` on a 4-cell circuit resolves to address 0. -/
theorem c10_add_wire_constraint_witness :
    ((CircuitBuilder.new ⟨1, 0⟩).add_wire_constraint (.Input 1000) (.Wire 0)).wiring_pairs =
      [] ++ [(.Input 1000, .Wire 0)] ∧
    resolve_ref 4 (.Input 4) = .ok (4 - 4) ∧
    resolve_ref 4 (.Input 1000) = .error sub_overflow_msg := by
  have h := c10_add_wire_constraint (CircuitBuilder.new ⟨1, 0⟩) (.Input 1000) (.Wire 0)
  exact ⟨h.1, h.2.2.2.2.2.1 4 4 (by decide), h.2.2.2.2.2.2 4 1000 (by decide)⟩

/-- C9 counterexample: a reachable builder with one declared row on which
`build()` nevertheless fails — its recorded `add_wire_constraint` pair
holds `Input 1000`, and resolving it computes `n_cells - 1000 = 4 - 1000`,
an underflowing (panicking) subtraction.  This refutes the claim's second
half, "for every builder with at least one declared row, build()
succeeds". -/
theorem c9_counterexample :
    runCmds (CircuitBuilder.new ⟨1, 0⟩)
      [.addAddition (.Input 1) (.Input 1), .addWireConstraint (.Input 1000) (.Wire 0)] =
      .ok wild_input_builder ∧
    wild_input_builder.current_row = 1 ∧
    wild_input_builder.build = .error sub_overflow_msg := by
  refine ⟨by decide, rfl, by decide⟩

/-- C9 amended: `build()` on a builder that declared zero rows fails (the
`current_row * 3 - 1` subtraction panics); a builder with at least one
declared row builds successfully with `output = current_row * 3 - 1`
provided every recorded `Input` reference has index at most `n_cells` —
which holds in particular for every builder whose pairs were recorded only
through validated gate calls. -/
theorem c9_amended :
    ∀ b : CircuitBuilder,
      (b.current_row = 0 → ∃ e, b.build = .error e) ∧
      (1 ≤ b.current_row →
        input_refs_le (b.input_config.total_input + b.current_row * 3) b.wiring_pairs →
        ∃ c, b.build = .ok c ∧ c.output = b.current_row * 3 - 1) :=
  fun b => ⟨fun h => build_zero_rows h, fun h1 h2 => build_ok_of_rows_of_le h1 h2⟩

/-- Witness for C9 amended: the fresh zero-row builder cannot be built;
the one-gate builder builds with output address 2. -/
theorem c9_amended_witness :
    (∃ e, (CircuitBuilder.new ⟨1, 0⟩).build = .error e) ∧
    (∃ c, one_gate_builder.build = .ok c ∧ c.output = 1 * 3 - 1) :=
  ⟨(c9_amended (CircuitBuilder.new ⟨1, 0⟩)).1 rfl,
   (c9_amended one_gate_builder).2 (by decide) (by decide)⟩

/-- C3 counterexample: after one valid gate, the manual call
`add_wire_constraint(Wire 0, Wire 1)` records a pair whose two resolved
addresses already lie in two different sets; the greedy fold inserts 1
into the first set only, producing `[0, 1, 4]` and `[1, 3]`, which
overlap at address 1 — the collection is not pairwise disjoint and has
two sets for one value-equivalence class, refuting the claim for general
successful builder-call sequences. -/
theorem c3_counterexample :
    runCmds (CircuitBuilder.new ⟨2, 0⟩) bridge_cmds = .ok bridge_builder ∧
    bridge_builder.build = .ok bridge_circuit ∧
    bridge_circuit.copy_constraints = [[0, 1, 4], [1, 3]] ∧
    (1 : Nat) ∈ [0, 1, 4] ∧ (1 : Nat) ∈ [1, 3] ∧
    ¬ sets_pairwise_disjoint bridge_circuit.copy_constraints := by
  refine ⟨by decide, by decide, rfl, by decide, by decide, ?_⟩
  intro hd
  unfold sets_pairwise_disjoint at hd
  have hr := (List.pairwise_cons.mp hd).1 [1, 3] (by simp) 1 (by decide)
  exact hr (by decide)

/-- C3 amended: for every sequence of successful builder calls, the union
of the copy-constraint sets produced by `build()` is exactly the set of
addresses touched by at least one (resolved) wiring pair or input
declaration.  The sets are NOT pairwise disjoint in general and the
greedy declaration-order fold does not merge classes like a full
union-find: a pair bridging two existing sets inserts into the first set
only.  When the builder records pairs only through the validated gate
calls (no direct `add_wire_constraint`), the sets are pairwise
disjoint. -/
theorem c3_amended :
    ∀ (cfg : InputConfig) (cmds : List BuilderCmd) (b : CircuitBuilder) (circ : Circuit),
      runCmds (CircuitBuilder.new cfg) cmds = .ok b → b.build = .ok circ →
      (∃ rps, resolve_pairs circ.n_cells b.wiring_pairs = .ok rps ∧
        ∀ a, mem_sets a circ.copy_constraints ↔
          ((∃ k, 1 ≤ k ∧ k ≤ cfg.total_input ∧ a = circ.n_cells - k) ∨
            ∃ p ∈ rps, a = p.1 ∨ a = p.2)) ∧
      ((∀ c ∈ cmds, c.isWire = false) → sets_pairwise_disjoint circ.copy_constraints) := by
  intro cfg cmds b circ hrun hbuild
  rcases build_ok_elim hbuild with ⟨hic, hsel, hrows, hcells, hpos, hout, rps, hrps, hcc⟩
  rcases runCmds_shape hrun with ⟨hic0, hlen⟩
  constructor
  · refine ⟨rps, hrps, fun a => ?_⟩
    rw [hcc, mem_sets_map_sort, foldl_wiring_step_mem, init_sets_mem, hic0]
  · intro hwf
    have hg := runCmds_gate_shaped hrun hwf
    have hC : b.input_config.total_input + b.current_row * 3 ≤ circ.n_cells := by
      omega
    rcases gate_shaped_resolve hg hC with ⟨rps', hrps', hq1, hq4, hq2, hq3⟩
    have hsame : rps' = rps := by
      have := hrps'.symm.trans hrps
      cases this
      rfl
    subst hsame
    rw [hcc]
    apply disjoint_map_sort
    apply foldl_wiring_step_disjoint
    · exact init_sets_disjoint _ _ (by omega)
    · intro p hp hmem
      rw [init_sets_mem] at hmem
      rcases hmem with ⟨k, hk1, hk2, heq⟩
      have h1 := hq1 p hp
      omega
    · exact hq3

/-- Witness for C3 amended, at the worked example (a gates-only
sequence): the union characterisation and the disjointness both hold. -/
theorem c3_amended_witness :
    (∃ rps, resolve_pairs example_circuit.n_cells example_builder.wiring_pairs = .ok rps ∧
      ∀ a, mem_sets a example_circuit.copy_constraints ↔
        ((∃ k, 1 ≤ k ∧ k ≤ InputConfig.total_input ⟨2, 1⟩ ∧
            a = example_circuit.n_cells - k) ∨
          ∃ p ∈ rps, a = p.1 ∨ a = p.2)) ∧
    sets_pairwise_disjoint example_circuit.copy_constraints := by
  have h := c3_amended ⟨2, 1⟩ example_cmds example_builder example_circuit
    (by decide) (by decide)
  exact ⟨h.1, h.2 (by decide)⟩

/-- C1 counterexample: a built circuit (reachable via public builder
calls, using `add_wire_constraint`) and arity-correct inputs on which
`calculate_witness` succeeds, yet the returned trace violates both the
gate equation of row 0 (`trace[2] = 1 ≠ 1 + 1 = trace[0] + trace[1]`) and
the copy-constraint equality of the set `[0,2,3,4,5,7]`
(`trace[5] = 2 ≠ 1 = trace[0]`). -/
theorem c1_counterexample :
    runCmds (CircuitBuilder.new ⟨2, 0⟩) unsound_cmds = .ok unsound_builder ∧
    unsound_builder.build = .ok unsound_circuit ∧
    calculate_witness (F := Int) 100 unsound_circuit [1, 1] [] =
      .ok [1, 1, 1, 1, 1, 2, 1, 1] ∧
    ¬ gate_equations_hold unsound_circuit ([1, 1, 1, 1, 1, 2, 1, 1] : List Int) ∧
    ¬ copy_constraints_hold unsound_circuit ([1, 1, 1, 1, 1, 2, 1, 1] : List Int) := by
  refine ⟨by decide, by decide, by decide, by decide, by decide⟩

/-- C1 amended: whenever `calculate_witness` succeeds on a built circuit,
the stored computation trace assigns a value to every cell (its length is
exactly `n_cells`); and when the circuit was built through the validated
gate calls only (no direct `add_wire_constraint`), the returned trace
moreover satisfies every row's gate equation and holds equal values at
all addresses within each copy-constraint set.  The gate/copy guarantees
do NOT extend to circuits built with manual `add_wire_constraint` calls:
the counterexample violates both. -/
theorem c1_amended :
    ∀ {F : Type} [inst : CommRing F] (fuel : Nat) (cfg : InputConfig)
      (cmds : List BuilderCmd) (b : CircuitBuilder) (circ : Circuit)
      (pub priv trace : List F),
      runCmds (CircuitBuilder.new cfg) cmds = .ok b → b.build = .ok circ →
      calculate_witness fuel circ pub priv = .ok trace →
      trace.length = circ.n_cells ∧
      ((∀ c ∈ cmds, c.isWire = false) →
        gate_equations_hold circ trace ∧ copy_constraints_hold circ trace) := by
  intro F inst fuel cfg cmds b circ pub priv trace hrun hbuild h
  refine ⟨calculate_witness_ok_length h, ?_⟩
  intro hwf
  rcases built_gates_structure hrun hbuild hwf with ⟨hdis, hgs, hnot⟩
  rcases build_ok_elim hbuild with ⟨hic, hsel, hrows, hcells, hpos, houtid, rps, hrps, hcc⟩
  have hcells' : circ.n_cells = circ.n_inputs + 3 * circ.n_rows := by
    unfold Circuit.n_inputs
    rw [hic]
    omega
  unfold calculate_witness at h
  cases hwp : witness_phases fuel circ pub priv with
  | error e => simp only [hwp] at h; cases h
  | ok t =>
      simp only [hwp] at h
      unfold witness_phases at hwp
      cases hip : input_phase circ pub priv with
      | error e => simp only [hip] at hwp; cases hwp
      | ok st =>
          cases st with
          | mk t0 q0 =>
              simp only [hip] at hwp
              have hq0 : queue_ok circ t0 q0 := input_phase_queue_ok hip
              rcases input_phase_sound hdis hgs hcells' hip with ⟨hcons0, houts0⟩
              have hgp0 : gate_partial circ t0 := by
                intro r hr w hw'
                rw [houts0 (3 * r + 2) (by unfold out_cell; omega)] at hw'
                cases hw'
              rcases drain_sound hdis hgs hnot fuel t0 q0 t hq0 hcons0 hgp0 hwp with
                ⟨hconsT, hgpT⟩
              have hlen : t.length = circ.n_cells := by
                rw [drain_ok_length hwp]
                exact input_phase_ok_length hip
              have hval := collect_trace_getD_lt h
              constructor
              · intro r hr
                have h3 : 3 * r + 2 < t.length := by omega
                have hv2 := hval (3 * r + 2) h3
                rcases hgpT r hr (trace.getD (3 * r + 2) 0) hv2 with ⟨a, b, ha, hb, heq⟩
                have hv0 := hval (3 * r) (by omega)
                have hv1 := hval (3 * r + 1) (by omega)
                rw [hv0] at ha
                rw [hv1] at hb
                injection ha with ha'
                injection hb with hb'
                rw [heq, ← ha', ← hb']
              · intro s hs a ha b hb
                have hceq := hconsT s hs a ha b hb
                have htr : trace.length = t.length := collect_trace_ok_length h
                by_cases hal : a < t.length
                · by_cases hbl : b < t.length
                  · have hva := hval a hal
                    have hvb := hval b hbl
                    rw [hva, hvb] at hceq
                    injection hceq
                  · exfalso
                    have hbn : t.getD b none = none := by
                      rw [List.getD_eq_getElem?_getD, List.getElem?_eq_none (by omega)]
                      rfl
                    rw [hval a hal, hbn] at hceq
                    cases hceq
                · by_cases hbl : b < t.length
                  · exfalso
                    have han : t.getD a none = none := by
                      rw [List.getD_eq_getElem?_getD, List.getElem?_eq_none (by omega)]
                      rfl
                    rw [hval b hbl, han] at hceq
                    cases hceq
                  · have hta : trace.getD a 0 = 0 := by
                      rw [List.getD_eq_getElem?_getD, List.getElem?_eq_none (by omega)]
                      rfl
                    have htb : trace.getD b 0 = 0 := by
                      rw [List.getD_eq_getElem?_getD, List.getElem?_eq_none (by omega)]
                      rfl
                    rw [hta, htb]

/-- Witness for C1 amended at the worked example (a gates-only call
sequence): the trace covers all cells, satisfies the three gate
equations and all copy-constraint equalities. -/
theorem c1_amended_witness :
    (runCmds (CircuitBuilder.new ⟨2, 1⟩) example_cmds = .ok example_builder ∧
     example_builder.build = .ok example_circuit ∧
     calculate_witness (F := Int) 100 example_circuit [3, 5] [7] =
       .ok [3, 7, 10, 10, 5, 50, 50, 7, 57, 7, 5, 3] ∧
     (∀ c ∈ example_cmds, c.isWire = false)) ∧
    ([3, 7, 10, 10, 5, 50, 50, 7, 57, 7, 5, 3] : List Int).length =
      example_circuit.n_cells ∧
    gate_equations_hold example_circuit
      ([3, 7, 10, 10, 5, 50, 50, 7, 57, 7, 5, 3] : List Int) ∧
    copy_constraints_hold example_circuit
      ([3, 7, 10, 10, 5, 50, 50, 7, 57, 7, 5, 3] : List Int) := by
  have h := c1_amended (F := Int) 100 ⟨2, 1⟩ example_cmds example_builder example_circuit
    [3, 5] [7] [3, 7, 10, 10, 5, 50, 50, 7, 57, 7, 5, 3]
    (by decide) (by decide) (by decide)
  exact ⟨⟨by decide, by decide, by decide, by decide⟩, h.1, h.2 (by decide)⟩

/-- C8 counterexample: a gates-only built circuit (row 0's `out` feeds no
later gate) and arity-correct input on which `calculate_witness` fails
NOT with the incomplete-trace error but with a panic: the queue loop
computes cell 2 and then `get_copy_constraints(2).unwrap()` finds no set
containing it.  This refutes "the incomplete-trace error is the only
failure mode". -/
theorem c8_counterexample :
    runCmds (CircuitBuilder.new ⟨1, 0⟩) dangling_cmds = .ok dangling_builder ∧
    dangling_builder.build = .ok dangling_circuit ∧
    calculate_witness (F := Int) 100 dangling_circuit [3] [] = .error copy_lookup_msg ∧
    copy_lookup_msg ≠ incomplete_msg := by
  refine ⟨by decide, by decide, by decide, by decide⟩

/-- C8 amended: for every built circuit and arity-correct inputs, if
after input propagation and draining some cell remains unassigned,
`calculate_witness` returns the incomplete-trace error (and stores no
witness).  This is however not the only failure mode: the run always
ends in one of — success, the incomplete-trace error, the copy-set
lookup panic (a computed non-output `out` cell covered by no set), or an
out-of-range trace write panic (a wild constraint address); in
particular the input-value fetch, the operand unwraps and the selector
unwrap never fail on such a circuit.  (The fuel alternative is an
artefact of modelling the Rust `while` loop; every statement holds for
every fuel value.) -/
theorem c8_amended :
    ∀ {F : Type} [inst : CommRing F] (cfg : InputConfig) (cmds : List BuilderCmd)
      (b : CircuitBuilder) (circ : Circuit) (pub priv : List F) (fuel : Nat),
      runCmds (CircuitBuilder.new cfg) cmds = .ok b → b.build = .ok circ →
      pub.length = cfg.n_pub → priv.length = cfg.n_priv →
      (∀ t, witness_phases fuel circ pub priv = .ok t → none ∈ t →
        calculate_witness fuel circ pub priv = .error incomplete_msg) ∧
      ((∃ tr, calculate_witness fuel circ pub priv = .ok tr) ∨
        calculate_witness fuel circ pub priv = .error incomplete_msg ∨
        calculate_witness fuel circ pub priv = .error copy_lookup_msg ∨
        calculate_witness fuel circ pub priv = .error oob_write_msg ∨
        calculate_witness fuel circ pub priv = .error fuel_msg) := by
  intro F inst cfg cmds b circ pub priv fuel hrun hbuild hpub hpriv
  rcases build_ok_elim hbuild with ⟨hic, hsel, hrows, hcells, hpos, hout, rps, hrps, hcc⟩
  rcases runCmds_shape hrun with ⟨hic0, hlen⟩
  constructor
  · intro t hp hnone
    unfold calculate_witness
    rw [hp]
    exact collect_trace_none hnone
  · have hsellen : circ.selectors.length = circ.n_rows := by
      rw [hsel, hrows, hlen]
    have htotal : circ.n_inputs = cfg.n_pub + cfg.n_priv := by
      unfold Circuit.n_inputs
      rw [hic, hic0]
      rfl
    have hval : ∀ i < circ.n_inputs, (get_input_val pub priv i).isSome = true := by
      intro i hi
      exact get_input_val_isSome circ.n_inputs (by rw [hpub, hpriv]; omega) hi
    have hcov : ∀ i < circ.n_inputs,
        mem_sets (circ.n_cells - (i + 1)) circ.copy_constraints := by
      intro i hi
      exact built_input_covered hbuild (by omega) (by omega)
    rcases input_phase_spec circ pub priv hval hcov with herr | ⟨t, q, hip, hlent, hq⟩
    · right; right; right; left
      unfold calculate_witness witness_phases
      simp only [herr]
    · rcases drain_spec circ hsellen fuel t q hq with ⟨t', hdr⟩ | hdr | hdr | hdr
      · cases hcol : collect_trace t' with
        | ok tr =>
            left
            refine ⟨tr, ?_⟩
            unfold calculate_witness witness_phases
            simp only [hip, hdr, hcol]
        | error m =>
            right; left
            have hm := collect_trace_error_elim hcol
            unfold calculate_witness witness_phases
            simp only [hip, hdr, hcol, hm]
      · right; right; left
        unfold calculate_witness witness_phases
        simp only [hip, hdr]
      · right; right; right; left
        unfold calculate_witness witness_phases
        simp only [hip, hdr]
      · right; right; right; right
        unfold calculate_witness witness_phases
        simp only [hip, hdr]

/-- Witness for C8 amended at the worked example. -/
theorem c8_amended_witness :
    (∀ t, witness_phases 100 example_circuit ([3, 5] : List Int) [7] = .ok t → none ∈ t →
      calculate_witness 100 example_circuit ([3, 5] : List Int) [7] =
        .error incomplete_msg) ∧
    ((∃ tr, calculate_witness 100 example_circuit ([3, 5] : List Int) [7] = .ok tr) ∨
      calculate_witness 100 example_circuit ([3, 5] : List Int) [7] =
        .error incomplete_msg ∨
      calculate_witness 100 example_circuit ([3, 5] : List Int) [7] =
        .error copy_lookup_msg ∨
      calculate_witness 100 example_circuit ([3, 5] : List Int) [7] =
        .error oob_write_msg ∨
      calculate_witness 100 example_circuit ([3, 5] : List Int) [7] = .error fuel_msg) :=
  c8_amended ⟨2, 1⟩ example_cmds example_builder example_circuit [3, 5] [7] 100
    (by decide) (by decide) (by decide) (by decide)

/-- C6: for every successfully computed witness trace, the polynomial
returned by `compute_trace_polynomial` has degree below
`next_power_of_two(n_cells)` (its coefficient list has exactly that
length) and evaluates at the domain points `ω^j`, `j < n_cells`, exactly
to the trace values; the stored trace covers all `n_cells` cells.  `ω` is
the generator of the arkworks evaluation domain, characterised by the
stated root-of-unity hypotheses. -/
theorem c6_trace_polynomial :
    ∀ {F : Type} [inst : Field F] (ω : F) (fuel : Nat) (circ : Circuit)
      (pub priv trace : List F),
      calculate_witness fuel circ pub priv = .ok trace →
      ω ^ next_power_of_two circ.n_cells = 1 →
      (∀ j < next_power_of_two circ.n_cells, 0 < j → ω ^ j ≠ 1) →
      ((next_power_of_two circ.n_cells : F) ≠ 0) →
      trace.length = circ.n_cells ∧
      (compute_trace_polynomial ω circ trace).length = next_power_of_two circ.n_cells ∧
      ∀ j < circ.n_cells,
        eval_poly (compute_trace_polynomial ω circ trace) (ω ^ j) = trace.getD j 0 := by
  intro F inst ω fuel circ pub priv trace h hω hprim hN0
  refine ⟨calculate_witness_ok_length h, idft_length _ _ _, ?_⟩
  intro j hj
  have hjN : j < next_power_of_two circ.n_cells :=
    lt_of_lt_of_le hj (le_next_power_of_two _)
  unfold compute_trace_polynomial
  exact eval_poly_idft hω hprim hN0 (next_power_of_two_pos _) trace hjN

/-- Witness for C6 at the worked example over `ZMod 17` with the
primitive 16th root of unity `3`. -/
theorem c6_trace_polynomial_witness :
    calculate_witness (F := ZMod 17) 100 example_circuit [3, 5] [7] =
      .ok [3, 7, 10, 10, 5, 50, 50, 7, 57, 7, 5, 3] ∧
    (([3, 7, 10, 10, 5, 50, 50, 7, 57, 7, 5, 3] : List (ZMod 17)).length =
        example_circuit.n_cells ∧
      (compute_trace_polynomial (3 : ZMod 17) example_circuit
          [3, 7, 10, 10, 5, 50, 50, 7, 57, 7, 5, 3]).length =
        next_power_of_two example_circuit.n_cells ∧
      ∀ j < example_circuit.n_cells,
        eval_poly (compute_trace_polynomial (3 : ZMod 17) example_circuit
            [3, 7, 10, 10, 5, 50, 50, 7, 57, 7, 5, 3]) ((3 : ZMod 17) ^ j) =
          ([3, 7, 10, 10, 5, 50, 50, 7, 57, 7, 5, 3] : List (ZMod 17)).getD j 0) :=
  ⟨by decide,
   c6_trace_polynomial 3 100 example_circuit [3, 5] [7] _ (by decide) (by decide)
     (by decide) (by decide)⟩

/-- C4 counterexample: on the worked example the two selector
polynomials are different functions of the circuit — `setup.rs` uses
domain size `next_power_of_two(n_rows) = 4` while the prover
(`common.rs`) uses `next_power_of_two(n_cells) = 16`; their `Add`/`Mul`
constants are opposite (the prover's evaluation vector starts with `1`
for the `Add` row, setup's with `0`); and the two polynomials disagree
at the common domain point `1 = ω^0`, where the prover's evaluates to
`1` and setup's to `0`. -/
theorem c4_counterexample :
    next_power_of_two example_circuit.n_cells = 16 ∧
    next_power_of_two example_circuit.n_rows = 4 ∧
    (16 : Nat) ≠ 4 ∧
    common_selector_evals (F := ZMod 17) example_circuit = .ok [1, 0, 0, 0, 0, 0, 1] ∧
    example_circuit.selectors.map (setup_op_const (F := ZMod 17)) = [0, 1, 0] ∧
    (∃ L, common_compute_selector_polynomial (3 : ZMod 17) example_circuit = .ok L ∧
      eval_poly L 1 = 1) ∧
    eval_poly (setup_compute_selector_polynomial (13 : ZMod 17) example_circuit) 1 = 0 ∧
    (1 : ZMod 17) ≠ 0 := by
  refine ⟨by decide, by decide, by decide, by decide, by decide, ?_, ?_, by decide⟩
  · refine ⟨idft (3 : ZMod 17) 16 [1, 0, 0, 0, 0, 0, 1], ?_, ?_⟩
    · rw [common_poly_unfold,
        show common_selector_evals (F := ZMod 17) example_circuit =
          .ok [1, 0, 0, 0, 0, 0, 1] from by decide, except_bind_ok,
        show next_power_of_two example_circuit.n_cells = 16 from by decide]
    · have h := eval_poly_idft (F := ZMod 17) (ω := 3) (N := 16) (by decide)
        (by decide) (by decide) (by decide) [1, 0, 0, 0, 0, 0, 1] (i := 0) (by decide)
      simpa using h
  · have h := eval_poly_idft (F := ZMod 17) (ω := 13) (N := 4) (by decide)
      (by decide) (by decide) (by decide) [0, 1, 0] (i := 0) (by decide)
    have hs : setup_compute_selector_polynomial (13 : ZMod 17) example_circuit =
        idft (13 : ZMod 17) 4 [0, 1, 0] := rfl
    rw [hs]
    simpa using h

/-- C4 amended: `setup()` and the Prover do NOT use the same selector
polynomial.  Each is a pure function of the circuit, but they differ in
domain size and constant convention: the prover's (`common.rs`)
interpolates over `next_power_of_two(n_cells)` points and satisfies
`S(ω^{3r}) = 1` for an `Add` row and `0` for a `Mul` row (the convention
the gate identity `S·(T + T·shift) + (1−S)·T·T·shift − T·shift² = 0`
selects addition with), while setup's (`setup.rs`) interpolates over
`next_power_of_two(n_rows)` points and satisfies `S'(ω'^r) = 0` for
`Add` and `1` for `Mul` at consecutive points. -/
theorem c4_amended :
    ∀ {F : Type} [inst : Field F] (circ : Circuit) (ω ω' : F),
      0 < circ.n_rows → circ.selectors.length = circ.n_rows →
      circ.input_config.total_input + circ.n_rows * 3 = circ.n_cells →
      (ω ^ next_power_of_two circ.n_cells = 1 →
       (∀ j < next_power_of_two circ.n_cells, 0 < j → ω ^ j ≠ 1) →
       ((next_power_of_two circ.n_cells : F) ≠ 0) →
       ∃ L, common_compute_selector_polynomial ω circ = .ok L ∧
         L.length = next_power_of_two circ.n_cells ∧
         ∀ r < circ.n_rows, eval_poly L (ω ^ (3 * r)) =
           common_op_const (circ.selectors.getD r Op.Add)) ∧
      (ω' ^ next_power_of_two circ.n_rows = 1 →
       (∀ j < next_power_of_two circ.n_rows, 0 < j → ω' ^ j ≠ 1) →
       ((next_power_of_two circ.n_rows : F) ≠ 0) →
       (setup_compute_selector_polynomial ω' circ).length =
         next_power_of_two circ.n_rows ∧
       ∀ r < circ.n_rows,
         eval_poly (setup_compute_selector_polynomial ω' circ) (ω' ^ r) =
           setup_op_const (circ.selectors.getD r Op.Add)) := by
  intro F inst circ ω ω' hpos hsellen hcells
  constructor
  · intro hω hprim hN0
    have hne : circ.selectors ≠ [] := by
      intro h
      rw [h] at hsellen
      simp at hsellen
      omega
    rcases common_selector_evals_ok (F := F) circ hne with ⟨ev, hev, hevlen, hget⟩
    refine ⟨idft ω (next_power_of_two circ.n_cells) ev, ?_, idft_length _ _ _, ?_⟩
    · rw [common_poly_unfold, hev, except_bind_ok]
    · intro r hr
      have h3r : 3 * r < next_power_of_two circ.n_cells := by
        have := le_next_power_of_two circ.n_cells
        omega
      rw [eval_poly_idft hω hprim hN0 (next_power_of_two_pos _) ev h3r]
      exact hget r (by omega)
  · intro hω hprim hM0
    constructor
    · exact idft_length _ _ _
    · intro r hr
      have hrM : r < next_power_of_two circ.n_rows :=
        lt_of_lt_of_le hr (le_next_power_of_two _)
      unfold setup_compute_selector_polynomial
      rw [eval_poly_idft hω hprim hM0 (next_power_of_two_pos _) _ hrM]
      exact map_getD_of_lt _ _ (by omega)

/-- Witness for C4 amended at the worked example over `ZMod 17`, with
`ω = 3` (order 16) and `ω' = 13 = 3^4` (order 4). -/
theorem c4_amended_witness :
    (∃ L, common_compute_selector_polynomial (3 : ZMod 17) example_circuit = .ok L ∧
      L.length = next_power_of_two example_circuit.n_cells ∧
      ∀ r < example_circuit.n_rows, eval_poly L ((3 : ZMod 17) ^ (3 * r)) =
        common_op_const (example_circuit.selectors.getD r Op.Add)) ∧
    ((setup_compute_selector_polynomial (13 : ZMod 17) example_circuit).length =
      next_power_of_two example_circuit.n_rows ∧
     ∀ r < example_circuit.n_rows,
       eval_poly (setup_compute_selector_polynomial (13 : ZMod 17) example_circuit)
         ((13 : ZMod 17) ^ r) =
         setup_op_const (example_circuit.selectors.getD r Op.Add)) :=
  ⟨(c4_amended example_circuit 3 13 (by decide) (by decide) (by decide)).1
     (by decide) (by decide) (by decide),
   (c4_amended example_circuit 3 13 (by decide) (by decide) (by decide)).2
     (by decide) (by decide) (by decide)⟩
